import Mathlib

/-!
Verification of the trace-buffer core of a distributed-tracing client
(`ddtrace/tracer/spancontext.go`): trace identifiers, span contexts,
the push / finish / flush protocol of the shared trace buffer, the
sampling-priority and decision-maker protocol, and peer-service tag
resolution.  Go maps are embedded as association lists, machine
integers as `Nat`/`Int` with explicit `% 2^64` where overflow matters,
pointer-aliased span mutation as keyed updates on the buffer list, and
code that can panic (nil-pointer dereference, out-of-range indexing)
as `Except Unit`.
-/

/-! ## Association-list maps (embedding of Go `map[string]V`) -/

/-- Lookup in an association list, the embedding of a Go map read
`v, ok := m[k]`. -/
def mapGet {α : Type} (m : List (String × α)) (k : String) : Option α :=
  (m.find? (fun p => p.1 == k)).map (fun p => p.2)

/-- Deletion from an association list, the embedding of `delete(m, k)`. -/
def mapDel {α : Type} (m : List (String × α)) (k : String) :
    List (String × α) :=
  m.filter (fun p => ¬ p.1 == k)

/-- Point update of an association list, the embedding of `m[k] = v`:
binds `k` to `v`, removing any previous binding.  (Go map iteration
order is unspecified, so the list order is a modelling choice.) -/
def mapSet {α : Type} (m : List (String × α)) (k : String) (v : α) :
    List (String × α) :=
  (k, v) :: mapDel m k

/-! ## Hex encoding and parsing (`encoding/hex`, `strconv.ParseUint`) -/

/-- The digit table `hexEncodingDigits = "0123456789abcdef"`. -/
def hexDigits : List Char :=
  ['0', '1', '2', '3', '4', '5', '6', '7'] ++
    ['8', '9', 'a', 'b', 'c', 'd', 'e', 'f']

/-- The hex character for one nibble. -/
def hexDigitChar (n : Nat) : Char := hexDigits.getD n '0'

/-- Two lowercase hex characters for one byte, as `hex.EncodeToString`
produces per byte. -/
def byteHex (b : Nat) : List Char := [hexDigitChar (b / 16), hexDigitChar (b % 16)]

/-- `hex.EncodeToString` over a byte list. -/
def hexEncode (bs : List Nat) : String := String.mk ((bs.map byteHex).flatten)

/-- Numeric value of one hex character, case-insensitive, as
`strconv.ParseUint` with base 16 accepts digits. -/
def hexCharVal (c : Char) : Option Nat :=
  if '0' ≤ c ∧ c ≤ '9' then some (c.toNat - '0'.toNat)
  else if 'a' ≤ c ∧ c ≤ 'f' then some (c.toNat - 'a'.toNat + 10)
  else if 'A' ≤ c ∧ c ≤ 'F' then some (c.toNat - 'A'.toNat + 10)
  else none

/-- Accumulator loop of `strconv.ParseUint(s, 16, 64)`: a malformed
character or a value outside 64 bits is a parse error (`none`). -/
def parseHexAux : List Char → Nat → Option Nat
  | [], acc => some acc
  | c :: rest, acc =>
    match hexCharVal c with
    | some d =>
      let v := acc * 16 + d
      if v < 2 ^ 64 then parseHexAux rest v else none
    | none => none

/-- `strconv.ParseUint(s, 16, 64)`: the empty string is malformed. -/
def parseUintHex64 (s : String) : Option Nat :=
  if s.isEmpty then none else parseHexAux s.data 0

/-! ## Trace identifier (`traceID [16]byte`, big endian) -/

/-- The 16 bytes of a 128-bit trace identifier, big endian:
`<upper 8 bytes><lower 8 bytes>`. -/
structure traceID where
  bytes : List Nat
deriving DecidableEq, Repr

/-- `binary.BigEndian.PutUint64`: the eight big-endian bytes of a
64-bit value (bits at and above 64 are discarded, as in `uint64`). -/
def putUint64BE (u : Nat) : List Nat :=
  [u / 2 ^ 56 % 256, u / 2 ^ 48 % 256, u / 2 ^ 40 % 256, u / 2 ^ 32 % 256,
   u / 2 ^ 24 % 256, u / 2 ^ 16 % 256, u / 2 ^ 8 % 256, u % 256]

/-- `binary.BigEndian.Uint64`: the value of eight big-endian bytes. -/
def beUint64 (bs : List Nat) : Nat := bs.foldl (fun a b => a * 256 + b) 0

/-- The all-zero identifier `emptyTraceID`. -/
def emptyTraceID : traceID := ⟨List.replicate 16 0⟩

/-- `TraceIDZero`, the 32-zero hex string. -/
def TraceIDZero : String := "00000000000000000000000000000000"

/-- `traceID.HexEncoded`. -/
def traceID.HexEncoded (t : traceID) : String := hexEncode t.bytes

/-- `traceID.Lower`. -/
def traceID.Lower (t : traceID) : Nat := beUint64 (t.bytes.drop 8)

/-- `traceID.Upper`. -/
def traceID.Upper (t : traceID) : Nat := beUint64 (t.bytes.take 8)

/-- `traceID.SetLower`. -/
def traceID.SetLower (t : traceID) (u : Nat) : traceID :=
  ⟨t.bytes.take 8 ++ putUint64BE u⟩

/-- `traceID.SetUpper`. -/
def traceID.SetUpper (t : traceID) (u : Nat) : traceID :=
  ⟨putUint64BE u ++ t.bytes.drop 8⟩

/-- `traceID.SetUpperFromHex`: parses the string as an unsigned 64-bit
hex integer; a malformed string is an error and the identifier is left
unchanged (the caller keeps its value). -/
def traceID.SetUpperFromHex (t : traceID) (s : String) : Except Unit traceID :=
  match parseUintHex64 s with
  | some u => .ok (t.SetUpper u)
  | none => .error ()

/-- `traceID.Empty`. -/
def traceID.Empty (t : traceID) : Bool := t == emptyTraceID

/-- `traceID.HasUpper`: scans the upper eight bytes for a non-zero one. -/
def traceID.HasUpper (t : traceID) : Bool := (t.bytes.take 8).any (fun b => b ≠ 0)

/-- `traceID.UpperHex`. -/
def traceID.UpperHex (t : traceID) : String := hexEncode (t.bytes.take 8)

/-! ## Sampling decision, spans, the trace buffer and its environment -/

/-- The tri-state sampling decision (`samplingDecision`). -/
inductive SamplingDecision where
  | none
  | drop
  | keep
deriving DecidableEq, Repr

/-- Modelled from the spec: `samplernames.SamplerName` is not among the
given files; the spec describes it as a numeric sampler identifier with
a distinguished "unknown" value.  Embedded as `Int`. -/
abbrev SamplerName := Int

/-- Modelled from the spec: the distinguished `samplernames.Unknown`
value. -/
def samplerUnknown : SamplerName := -1

/-- `samplerToDM`: `"-" + strconv.Itoa(int(sampler))`. -/
def samplerToDM (sampler : SamplerName) : String := "-" ++ toString sampler

/-- Modelled from the spec: the propagating "decision maker" tag key
(`keyDecisionMaker`, defined outside the given files). -/
def keyDecisionMaker : String := "_dd.p.dm"

/-- Modelled from the spec: the sampling-priority metric key
(`keySamplingPriority`, defined outside the given files). -/
def keySamplingPriority : String := "_sampling_priority_v1"

/-- Modelled from the spec: the base-service tag key (`keyBaseService`,
defined outside the given files). -/
def keyBaseService : String := "_dd.base_service"

/-- Modelled from the spec: the 128-bit upper-half tag key
(`keyTraceID128`, defined outside the given files). -/
def keyTraceID128 : String := "_dd.p.tid"

/-- Modelled from the spec: the process-tags tag key (`keyProcessTags`,
defined outside the given files). -/
def keyProcessTags : String := "_dd.tags.process"

/-- `ext.SpanKind` (from `ddtrace/ext/tags.go`). -/
def extSpanKind : String := "span.kind"

/-- Modelled from the spec: `ext.SpanKindClient` ("client"). -/
def extSpanKindClient : String := "client"

/-- Modelled from the spec: `ext.SpanKindProducer` ("producer"). -/
def extSpanKindProducer : String := "producer"

/-- Modelled from the spec: `ext.PeerService` ("peer.service"). -/
def extPeerService : String := "peer.service"

/-- Modelled from the spec: `keyPeerServiceSource`
("_dd.peer.service.source", named in the source's comment). -/
def keyPeerServiceSource : String := "_dd.peer.service.source"

/-- Modelled from the spec: `keyPeerServiceRemappedFrom`
("_dd.peer.service.remapped_from", named in the source's comment). -/
def keyPeerServiceRemappedFrom : String := "_dd.peer.service.remapped_from"

/-- Modelled from the spec: `ext.DBSystem` ("db.system"). -/
def extDBSystem : String := "db.system"

/-- Modelled from the spec: `ext.DBSystemCassandra` ("cassandra"). -/
def extDBSystemCassandra : String := "cassandra"

/-- Modelled from the spec: `ext.CassandraContactPoints`
("db.cassandra.contact.points"). -/
def extCassandraContactPoints : String := "db.cassandra.contact.points"

/-- Modelled from the spec: `ext.DBName` ("db.name"). -/
def extDBName : String := "db.name"

/-- Modelled from the spec: `ext.DBInstance` ("db.instance"). -/
def extDBInstance : String := "db.instance"

/-- Modelled from the spec: `ext.MessagingSystem` ("messaging.system"). -/
def extMessagingSystem : String := "messaging.system"

/-- Modelled from the spec: `ext.KafkaBootstrapServers`
("messaging.kafka.bootstrap.servers"). -/
def extKafkaBootstrapServers : String := "messaging.kafka.bootstrap.servers"

/-- Modelled from the spec: `ext.RPCSystem` ("rpc.system"). -/
def extRPCSystem : String := "rpc.system"

/-- Modelled from the spec: `ext.RPCService` ("rpc.service"). -/
def extRPCService : String := "rpc.service"

/-- `ext.NetworkDestinationName` (from `ddtrace/ext/tags.go`). -/
def extNetworkDestinationName : String := "network.destination.name"

/-- Modelled from the spec: `ext.PeerHostname` ("peer.hostname"). -/
def extPeerHostname : String := "peer.hostname"

/-- `ext.TargetHost` = "out.host" (from `ddtrace/ext/tags.go`). -/
def extTargetHost : String := "out.host"

/-- Modelled from the spec: a span owns its name and service, string
tags (`meta`), numeric metrics, a finished flag, and its context's
trace identifier (`none` embeds a nil context).  The `Span` struct
itself is outside the given files; `sid` stands for the span's Go
pointer identity, which the buffer, root and chunk references share. -/
structure Span where
  sid : Nat
  name : String
  service : String
  finished : Bool
  meta : List (String × String)
  metrics : List (String × Int)
  ctxTraceID : Option traceID
deriving DecidableEq, Repr

/-- `s.setMeta(k, v)`. -/
def Span.setMeta (s : Span) (k v : String) : Span :=
  { s with meta := mapSet s.meta k v }

/-- `s.setMetric(k, v)`. -/
def Span.setMetric (s : Span) (k : String) (v : Int) : Span :=
  { s with metrics := mapSet s.metrics k v }

/-- `markFinished`: the effect of `s.finished = true`. -/
def markFinished (s : Span) : Span := { s with finished := true }

/-- The `trace` struct: the buffer shared by all spans of one trace. -/
structure Trace where
  spans : List Span
  tags : List (String × String)
  propagatingTags : List (String × String)
  finished : Nat
  full : Bool
  priority : Option Int
  locked : Bool
  samplingDecision : SamplingDecision
  rootSid : Option Nat
deriving DecidableEq, Repr

/-- `newTrace`. -/
def newTrace : Trace :=
  { spans := [], tags := [], propagatingTags := [], finished := 0,
    full := false, priority := Option.none, locked := false,
    samplingDecision := SamplingDecision.none, rootSid := Option.none }

/-- `traceMaxSize = int(1e5)`. -/
def traceMaxSize : Nat := 100000

/-- A flushed chunk: the spans released together and the "will send"
boolean read off the sampling decision at flush time. -/
structure Chunk where
  spans : List Span
  willSend : Bool
deriving DecidableEq, Repr

/-- The live tracer configuration read through `TracerConf()`. -/
structure TracerConf where
  partialFlush : Bool
  partialFlushMinSpans : Int
  peerServiceDefaults : Bool
  peerServiceMappings : List (String × String)
  serviceTag : String
deriving DecidableEq, Repr

/-- The registered global tracer: its configuration and whether it is
the concrete internal tracer type (the `tr.(*tracer)` assertion), as
opposed to e.g. a mock. -/
structure TracerImpl where
  conf : TracerConf
  isConcrete : Bool
deriving DecidableEq, Repr

/-- The process-wide environment resolved inside the finish protocol:
the optionally registered global tracer, the git-metadata tags and the
process-tags string (external read-only providers). -/
structure Env where
  tracer : Option TracerImpl
  gitTags : List (String × String)
  processTags : String
deriving DecidableEq, Repr

/-! ## Sampling-priority and decision-maker protocol -/

/-- `setSamplingPriorityLocked(p, sampler)`: returns the updated buffer
and the "was updated" boolean. -/
def setSamplingPriorityLocked (t : Trace) (p : Int) (sampler : SamplerName) :
    Trace × Bool :=
  if t.locked then (t, false)
  else
    let updatedPriority := t.priority ≠ some p
    let t1 := { t with priority := some p }
    let curDM := mapGet t1.propagatingTags keyDecisionMaker
    if p > 0 ∧ sampler ≠ samplerUnknown then
      let dm := samplerToDM sampler
      if curDM ≠ some dm then
        ({ t1 with propagatingTags := mapSet t1.propagatingTags keyDecisionMaker dm },
         true)
      else
        (t1, updatedPriority)
    else
      let t2 :=
        if p ≤ 0 ∧ curDM.isSome then
          { t1 with propagatingTags := mapDel t1.propagatingTags keyDecisionMaker }
        else t1
      (t2, updatedPriority)

/-- `keep()`: compare-and-set of the decision from none to keep. -/
def Trace.keep (t : Trace) : Trace :=
  if t.samplingDecision = SamplingDecision.none then
    { t with samplingDecision := SamplingDecision.keep }
  else t

/-- `drop()`: compare-and-set of the decision from none to drop. -/
def Trace.drop (t : Trace) : Trace :=
  if t.samplingDecision = SamplingDecision.none then
    { t with samplingDecision := SamplingDecision.drop }
  else t

/-- A keep-or-drop call, for reasoning about call sequences. -/
inductive DecisionOp where
  | keep
  | drop
deriving DecidableEq, Repr

/-- Apply one keep/drop call. -/
def applyDecision (t : Trace) : DecisionOp → Trace
  | DecisionOp.keep => t.keep
  | DecisionOp.drop => t.drop

/-! ## Push protocol -/

/-- `push(sp)`: discard when full; at capacity mark full and release
the whole collection; otherwise apply a pre-set sampling-priority
metric (sampler unknown) and append the span. -/
def push (t : Trace) (sp : Span) : Trace :=
  if t.full then t
  else if traceMaxSize ≤ t.spans.length then
    { t with full := true, spans := [] }
  else
    let t1 :=
      match mapGet sp.metrics keySamplingPriority with
      | some v => (setSamplingPriorityLocked t v samplerUnknown).1
      | Option.none => t
    { t1 with spans := t1.spans ++ [sp] }

/-! ## Peer-service tag resolution -/

/-- Try each candidate source tag in order; the first present one sets
`peer.service` and is returned as the provenance source (the loop at
the end of `setPeerServiceFromSource`). -/
def firstSource (s : Span) : List String → Span × String
  | [] => (s, "")
  | src :: rest =>
    match mapGet s.meta src with
    | some val => (s.setMeta extPeerService val, src)
    | Option.none => firstSource s rest

/-- `setPeerServiceFromSource(s)`: choose the candidate source list by
the "system" tag family on the span, optionally append the generic
network-destination fallbacks, and take the first present source. -/
def setPeerServiceFromSource (s : Span) : Span × String :=
  let has := fun tag => (mapGet s.meta tag).isSome
  let sel : List String × Bool :=
    if has "aws_service" then
      (["queuename", "topicname", "streamname", "tablename", "bucketname"], true)
    else if mapGet s.meta extDBSystem = some extDBSystemCassandra then
      ([extCassandraContactPoints], false)
    else if has extDBSystem then
      ([extDBName, extDBInstance], true)
    else if has extMessagingSystem then
      ([extKafkaBootstrapServers], true)
    else if has extRPCSystem then
      ([extRPCService], true)
    else
      ([], true)
  let sources :=
    if sel.2 then
      sel.1 ++ [extNetworkDestinationName, extPeerHostname, extTargetHost]
    else sel.1
  firstSource s sources

/-- `setPeerService(s, peerServiceDefaults, peerServiceMappings)`. -/
def setPeerService (s : Span) (peerServiceDefaults : Bool)
    (peerServiceMappings : List (String × String)) : Span :=
  let afterSource : Option Span :=
    if (mapGet s.meta extPeerService).isSome then
      some (s.setMeta keyPeerServiceSource extPeerService)
    else
      let spanKind := (mapGet s.meta extSpanKind).getD ""
      let isOutboundRequest :=
        spanKind == extSpanKindClient || spanKind == extSpanKindProducer
      if isOutboundRequest && peerServiceDefaults then
        let r := setPeerServiceFromSource s
        if r.2 == "" then Option.none else some (r.1.setMeta keyPeerServiceSource r.2)
      else Option.none
  match afterSource with
  | Option.none => s
  | some s2 =>
    let ps := (mapGet s2.meta extPeerService).getD ""
    match mapGet peerServiceMappings ps with
    | some target => (s2.setMeta keyPeerServiceRemappedFrom ps).setMeta extPeerService target
    | Option.none => s2

/-! ## Finish and flush protocol -/

/-- ASCII lower-casing of one character. -/
def asciiLower (c : Char) : Char :=
  if 'A' ≤ c ∧ c ≤ 'Z' then Char.ofNat (c.toNat + 32) else c

/-- `strings.EqualFold`, embedded as ASCII-case-insensitive comparison
(the service names this code compares are ASCII). -/
def eqFold (a b : String) : Bool := a.data.map asciiLower == b.data.map asciiLower

/-- The sid of the first buffered span, for the pointer comparison
`s == t.spans[0]`. -/
def headSid (spans : List Span) : Option Nat := spans.head?.map (fun x => x.sid)

/-- Keyed update of the buffered span list: the embedding of mutating
a span object that the buffer holds by pointer. -/
def updAt (l : List Span) (i : Nat) (f : Span → Span) : List Span :=
  l.map (fun x => if x.sid = i then f x else x)

/-- `setTraceTags(s)`: trace tags, propagating tags, git-metadata tags,
the 128-bit upper-half tag when present, and the process tags, all set
on the given span. -/
def setTraceTags (env : Env) (t : Trace) (s : Span) : Span :=
  let s1 := t.tags.foldl (fun a p => a.setMeta p.1 p.2) s
  let s2 := t.propagatingTags.foldl (fun a p => a.setMeta p.1 p.2) s1
  let s3 := env.gitTags.foldl (fun a p => a.setMeta p.1 p.2) s2
  let s4 :=
    match s3.ctxTraceID with
    | some tid => if tid.HasUpper then s3.setMeta keyTraceID128 tid.UpperHex else s3
    | Option.none => s3
  if env.processTags ≠ "" then s4.setMeta keyProcessTags env.processTags else s4

/-- The outcome of one `finishedOne` call: the buffer, the finishing
span object after its mutations, and the chunk handed to the
submission sink, if any. -/
structure FinishResult where
  trace : Trace
  span : Span
  chunk : Option Chunk
deriving DecidableEq, Repr

/-- The per-finish span adornment block of `finishedOne`, between the
tracer lookup and the flush decision: peer-service resolution, the
base-service tag, the root priority freeze (which sets the buffer's
locked flag), and the first-span trace tags.  Returns the buffer
(changed at most in `locked`) and the adorned span. -/
def finishAdorn (env : Env) (tc : TracerConf) (t : Trace) (s : Span) : Trace × Span :=
  let s2 := setPeerService s tc.peerServiceDefaults tc.peerServiceMappings
  let s3 :=
    if s2.service ≠ "" ∧ ¬ eqFold s2.service tc.serviceTag then
      s2.setMeta keyBaseService tc.serviceTag
    else s2
  let rp : Trace × Span :=
    if t.rootSid = some s3.sid then
      match t.priority with
      | some p =>
        ({ t with locked := true }, s3.setMetric keySamplingPriority p)
      | Option.none => (t, s3)
    else (t, s3)
  let s5 := if headSid rp.1.spans = some rp.2.sid then setTraceTags env rp.1 rp.2 else rp.2
  (rp.1, s5)

/-- `finishedOne(s)`: mark the span finished; stop on a full buffer;
count the finish; stop when no global tracer is registered; adorn the
span (`finishAdorn`); then full-flush when every buffered span is
finished, else partially flush when enabled and over the threshold.
The partial-flush path dereferences the stored priority pointer and
indexes the first finished span; on a buffer with no priority set or
no finished span that is a runtime panic, embedded as `Except.error`. -/
def finishedOne (env : Env) (t : Trace) (s₀ : Span) : Except Unit FinishResult :=
  let s1 := markFinished s₀
  let ta := { t with spans := updAt t.spans s1.sid (fun _ => s1) }
  if ta.full then .ok ⟨ta, s1, Option.none⟩ else
  let tb := { ta with finished := ta.finished + 1 }
  match env.tracer with
  | Option.none => .ok ⟨tb, s1, Option.none⟩
  | some tri =>
    let tc := tri.conf
    let ad := finishAdorn env tc tb s1
    let t2 := ad.1
    let s5 := ad.2
    let t3 := { t2 with spans := updAt t2.spans s5.sid (fun _ => s5) }
    if t3.spans.length = t3.finished then
      let ch : Option Chunk :=
        if tri.isConcrete then
          some ⟨t3.spans, t3.samplingDecision = SamplingDecision.keep⟩
        else Option.none
      let t4 := if tri.isConcrete then { t3 with finished := 0 } else t3
      .ok ⟨{ t4 with spans := [] }, s5, ch⟩
    else if tc.partialFlush ∧ tc.partialFlushMinSpans ≤ (t3.finished : Int) then
      match t3.spans.filter (fun x => x.finished), t3.priority with
      | f0 :: frest, some p =>
        let f1 := f0.setMetric keySamplingPriority p
        let f2 := if ¬ headSid t3.spans = some s5.sid then setTraceTags env t3 f1 else f1
        let s6 := if f2.sid = s5.sid then f2 else s5
        let leftover := t3.spans.filter (fun x => ! x.finished)
        let ch : Option Chunk :=
          if tri.isConcrete then
            some ⟨f2 :: frest, t3.samplingDecision = SamplingDecision.keep⟩
          else Option.none
        let t4 := if tri.isConcrete then { t3 with finished := 0 } else t3
        .ok ⟨{ t4 with spans := leftover }, s6, ch⟩
      | _, _ => .error ()
    else .ok ⟨t3, s5, Option.none⟩

/-! ## Span context and its accessors -/

/-- A span link, the reference to a span in another trace. -/
structure SpanLink where
  traceIDLow : Nat
  spanID : Nat
deriving DecidableEq, Repr

/-- The propagatable per-span state (`SpanContext`), restricted to the
fields its read accessors use. -/
structure SpanContext where
  traceID : traceID
  spanID : Nat
  baggage : List (String × String)
  hasBaggage : Bool
  spanLinks : List SpanLink
  trace : Option Trace
deriving DecidableEq, Repr

/-- `SpanID()` on a possibly-nil receiver. -/
def ctxSpanID (c : Option SpanContext) : Nat :=
  match c with
  | Option.none => 0
  | some c => c.spanID

/-- `TraceID()` on a possibly-nil receiver. -/
def ctxTraceID (c : Option SpanContext) : String :=
  match c with
  | Option.none => TraceIDZero
  | some c => c.traceID.HexEncoded

/-- `TraceIDBytes()` on a possibly-nil receiver. -/
def ctxTraceIDBytes (c : Option SpanContext) : traceID :=
  match c with
  | Option.none => emptyTraceID
  | some c => c.traceID

/-- `TraceIDLower()` on a possibly-nil receiver. -/
def ctxTraceIDLower (c : Option SpanContext) : Nat :=
  match c with
  | Option.none => 0
  | some c => c.traceID.Lower

/-- `TraceIDUpper()` on a possibly-nil receiver. -/
def ctxTraceIDUpper (c : Option SpanContext) : Nat :=
  match c with
  | Option.none => 0
  | some c => c.traceID.Upper

/-- `samplingPriority()` of a trace buffer. -/
def samplingPriority (t : Trace) : Int × Bool :=
  match t.priority with
  | Option.none => (0, false)
  | some p => (p, true)

/-- `SamplingPriority()` on a possibly-nil receiver: `(0, false)` when
the context or its trace is nil. -/
def ctxSamplingPriority (c : Option SpanContext) : Int × Bool :=
  match c with
  | Option.none => (0, false)
  | some c =>
    match c.trace with
    | Option.none => (0, false)
    | some t => samplingPriority t

/-- The baggage items a visitor sees, in iteration order: iteration
stops after the first item on which the handler returns false. -/
def visitBaggage (handler : String → String → Bool) :
    List (String × String) → List (String × String)
  | [] => []
  | p :: rest =>
    if handler p.1 p.2 then p :: visitBaggage handler rest else [p]

/-- `ForeachBaggageItem(handler)` on a possibly-nil receiver: the items
the handler is invoked on.  A nil receiver or a clear has-baggage flag
short-circuits to no calls. -/
def ctxForeachBaggageItem (c : Option SpanContext)
    (handler : String → String → Bool) : List (String × String) :=
  match c with
  | Option.none => []
  | some c => if c.hasBaggage then visitBaggage handler c.baggage else []

/-- `SpanLinks()` dereferences the receiver with no nil guard: on a nil
context that is a runtime panic, embedded as `Except.error`; otherwise
it returns a defensive copy of the slice. -/
def ctxSpanLinks (c : Option SpanContext) : Except Unit (List SpanLink) :=
  match c with
  | Option.none => .error ()
  | some c => .ok c.spanLinks

/-! ## Drivers for multi-step runs -/

/-- Finish the buffered span with the given sid (the caller holds the
pointer to the buffer's own element): the buffer after the call and
the chunk it submitted, if any. -/
def finishSid (env : Env) (t : Trace) (i : Nat) : Except Unit (Trace × Option Chunk) :=
  match t.spans.find? (fun x => x.sid == i) with
  | some s => (finishedOne env t s).map (fun r => (r.trace, r.chunk))
  | Option.none => .ok (t, Option.none)

/-- Finish the given sids in order, collecting each call's submitted
chunk (or `none`). -/
def runFinishes (env : Env) (t : Trace) :
    List Nat → Except Unit (Trace × List (Option Chunk))
  | [] => .ok (t, [])
  | i :: rest => do
    let r ← finishSid env t i
    let rr ← runFinishes env r.1 rest
    .ok (rr.1, r.2 :: rr.2)

/-- One buffer operation: a push or a finish of a span object. -/
inductive BufOp where
  | pushOp (sp : Span)
  | finishOp (s : Span)
deriving DecidableEq, Repr

/-- Apply one buffer operation: the buffer after it and the chunk it
submitted, if any. -/
def applyBufOp (env : Env) (t : Trace) : BufOp → Except Unit (Trace × Option Chunk)
  | BufOp.pushOp sp => .ok (push t sp, Option.none)
  | BufOp.finishOp s => (finishedOne env t s).map (fun r => (r.trace, r.chunk))

/-- Apply a sequence of buffer operations, collecting the chunks. -/
def runBufOps (env : Env) (t : Trace) :
    List BufOp → Except Unit (Trace × List (Option Chunk))
  | [] => .ok (t, [])
  | op :: rest => do
    let r ← applyBufOp env t op
    let rr ← runBufOps env r.1 rest
    .ok (rr.1, r.2 :: rr.2)

/-- The span identities (Go pointer identities) of a span list, in
order. -/
def sidsOf (l : List Span) : List Nat := l.map (fun x => x.sid)

/-- The span identities collected across the chunks of a run, in
submission order. -/
def chunkSids (cs : List (Option Chunk)) : List Nat :=
  ((cs.filterMap id).map (fun c => sidsOf c.spans)).flatten

/-- A trace-identifier mutation, for reasoning about setter
sequences. -/
inductive TidOp where
  | setLower (u : Nat)
  | setUpper (u : Nat)
  | setUpperFromHex (s : String)
deriving DecidableEq, Repr

/-- Apply one trace-identifier mutation (a failed hex parse leaves the
identifier unchanged, as the error return does). -/
def applyTidOp (t : traceID) : TidOp → traceID
  | TidOp.setLower u => t.SetLower u
  | TidOp.setUpper u => t.SetUpper u
  | TidOp.setUpperFromHex s =>
    match t.SetUpperFromHex s with
    | .ok t2 => t2
    | .error _ => t

/-- Apply a sequence of trace-identifier mutations. -/
def applyTidOps (t : traceID) (ops : List TidOp) : traceID :=
  ops.foldl applyTidOp t

/-- Whether one mutation stores a non-zero value into the upper half. -/
def storesNonzeroUpper : TidOp → Bool
  | TidOp.setLower _ => false
  | TidOp.setUpper u => u % 2 ^ 64 ≠ 0
  | TidOp.setUpperFromHex s =>
    match parseUintHex64 s with
    | some u => u ≠ 0
    | Option.none => false

/-! ## Concrete instances used by the witnesses and counterexamples -/

/-- A fresh unfinished span with the given identity. -/
def wSpan (i : Nat) : Span := ⟨i, "op", "svc", false, [], [], Option.none⟩

/-- An already-finished span with the given identity. -/
def wSpanFin (i : Nat) : Span := ⟨i, "op", "svc", true, [], [], Option.none⟩

/-- A configuration with partial flush disabled. -/
def wConfOff : TracerConf := ⟨false, 1, false, [], "svc"⟩

/-- A configuration with partial flush enabled at minimum 2. -/
def wConfOn : TracerConf := ⟨true, 2, false, [], "svc"⟩

/-- No registered global tracer. -/
def wEnvNone : Env := ⟨Option.none, [], ""⟩

/-- A concrete tracer with partial flush disabled. -/
def wEnvOff : Env := ⟨some ⟨wConfOff, true⟩, [], ""⟩

/-- A concrete tracer with partial flush enabled at minimum 2. -/
def wEnvOn : Env := ⟨some ⟨wConfOn, true⟩, [], ""⟩

/-- A buffer that has overflowed and dropped its spans. -/
def wTraceFull : Trace := { newTrace with full := true }

/-- A buffer holding exactly `traceMaxSize` spans. -/
def wTraceCap : Trace := { newTrace with spans := List.replicate traceMaxSize (wSpan 0) }

/-- A three-span buffer whose sampling priority was never set, with one
span already finished and counted: the next finish fires a partial
flush under `wConfOn` and dereferences the unset priority. -/
def wTraceBug : Trace :=
  { newTrace with spans := [wSpanFin 1, wSpan 2, wSpan 3], finished := 1 }

/-- A three-span buffer, all spans unfinished, rooted at sid 1. -/
def wTrace3 : Trace := { newTrace with spans := [wSpan 1, wSpan 2, wSpan 3], rootSid := some 1 }

/-- A five-span buffer with a sampling priority set, rooted at sid 1. -/
def wTrace5 : Trace :=
  { newTrace with
    spans := [wSpan 1, wSpan 2, wSpan 3, wSpan 4, wSpan 5],
    rootSid := some 1, priority := some 2 }

/-- A three-span buffer with a sampling priority set, one span already
finished and counted: the next finish fires a partial flush under
`wConfOn`. -/
def wTraceC2 : Trace :=
  { newTrace with
    spans := [wSpanFin 1, wSpan 2, wSpan 3],
    finished := 1, priority := some 2 }

/-- An outbound Cassandra client span that also carries every generic
network-destination tag. -/
def wSpanC8 : Span :=
  { wSpan 9 with meta :=
      [(extSpanKind, "client"), (extDBSystem, "cassandra"),
       (extCassandraContactPoints, "10.0.0.1,10.0.0.2"),
       (extNetworkDestinationName, "db.example.com"),
       (extPeerHostname, "db-host"), (extTargetHost, "1.2.3.4")] }

/-! ## Association-list lemmas -/

theorem mapGet_mapDel_self {α : Type} (m : List (String × α)) (k : String) :
    mapGet (mapDel m k) k = Option.none := by
  induction m with
  | nil => simp [mapGet, mapDel]
  | cons hd tl ih =>
    by_cases hh : hd.1 = k
    · rw [show mapDel (hd :: tl) k = mapDel tl k from by simp [mapDel, List.filter_cons, hh]]
      exact ih
    · simp [mapGet, mapDel, List.filter_cons, hh, List.find?_cons]

theorem mapGet_mapDel_ne {α : Type} (m : List (String × α)) (k k' : String)
    (hne : k' ≠ k) : mapGet (mapDel m k) k' = mapGet m k' := by
  induction m with
  | nil => rfl
  | cons hd tl ih =>
    by_cases hh : hd.1 = k
    · have h1 : mapDel (hd :: tl) k = mapDel tl k := by
        simp [mapDel, List.filter_cons, hh]
      have hb : (hd.1 == k') = false := by
        rw [hh]
        simp
        exact fun h => hne h.symm
      have h2 : mapGet (hd :: tl) k' = mapGet tl k' := by
        simp [mapGet, List.find?_cons, hb]
      rw [h1, h2]
      exact ih
    · have h1 : mapDel (hd :: tl) k = hd :: mapDel tl k := by
        simp [mapDel, List.filter_cons, hh]
      by_cases hk' : hd.1 = k'
      · have hb : (hd.1 == k') = true := by simp [hk']
        rw [h1]
        simp [mapGet, List.find?_cons, hb]
      · have hb : (hd.1 == k') = false := by simp [hk']
        rw [h1]
        have h2 : mapGet (hd :: mapDel tl k) k' = mapGet (mapDel tl k) k' := by
          simp [mapGet, List.find?_cons, hb]
        have h3 : mapGet (hd :: tl) k' = mapGet tl k' := by
          simp [mapGet, List.find?_cons, hb]
        rw [h2, h3]
        exact ih

theorem mapGet_mapSet_self {α : Type} (m : List (String × α)) (k : String) (v : α) :
    mapGet (mapSet m k v) k = some v := by
  simp [mapGet, mapSet, List.find?_cons]

theorem mapGet_mapSet_ne {α : Type} (m : List (String × α)) (k k' : String) (v : α)
    (hne : k' ≠ k) : mapGet (mapSet m k v) k' = mapGet m k' := by
  have hk : (k == k') = false := by
    simp
    exact fun h => hne h.symm
  simp only [mapGet, mapSet, List.find?_cons, hk]
  exact mapGet_mapDel_ne m k k' hne

/-! ## Helper lemmas on the decision, push and finish operations -/

theorem foldl_applyDecision_fixed (ops : List DecisionOp) :
    ∀ t : Trace, t.samplingDecision ≠ SamplingDecision.none →
      List.foldl applyDecision t ops = t := by
  induction ops with
  | nil => intro t _; rfl
  | cons op rest ih =>
    intro t h
    have hstep : applyDecision t op = t := by
      cases op <;> simp [applyDecision, Trace.keep, Trace.drop, h]
    rw [List.foldl_cons, hstep]
    exact ih t h

theorem push_full (t : Trace) (sp : Span) (h : t.full = true) : push t sp = t := by
  simp [push, h]

theorem except_bind_ok {ε α β : Type} (a : α) (f : α → Except ε β) :
    (Except.ok a : Except ε α) >>= f = f a := rfl

theorem runBufOps_cons (env : Env) (t : Trace) (op : BufOp) (rest : List BufOp) :
    runBufOps env t (op :: rest) =
      (applyBufOp env t op) >>= (fun r =>
        (runBufOps env r.1 rest) >>= (fun rr => Except.ok (rr.1, r.2 :: rr.2))) := rfl

theorem finishedOne_full (env : Env) (t : Trace) (s : Span) (h : t.full = true) :
    finishedOne env t s =
      Except.ok ⟨{ t with spans := (updAt t.spans s.sid (fun _ => markFinished s)) },
        markFinished s, Option.none⟩ := by
  simp only [finishedOne]
  have hfull : ({ t with spans := (updAt t.spans (markFinished s).sid
      (fun _ => markFinished s)) } : Trace).full = true := h
  rw [if_pos hfull]
  simp [markFinished]

/-! ## C5 -/

/-- C5: the sampling decision transitions only from none to drop or
none to keep; for any sequence of keep/drop calls the first call fixes
the decision and every later call is a no-op, so the decision never
flips. -/
theorem c5_decision_first_wins (t : Trace) (op : DecisionOp) (ops : List DecisionOp)
    (h : t.samplingDecision = SamplingDecision.none) :
    ((applyDecision t op).samplingDecision =
      match op with
      | DecisionOp.keep => SamplingDecision.keep
      | DecisionOp.drop => SamplingDecision.drop) ∧
    (List.foldl applyDecision (applyDecision t op) ops).samplingDecision =
      (applyDecision t op).samplingDecision ∧
    (∀ t2 op2, t2.samplingDecision ≠ SamplingDecision.none → applyDecision t2 op2 = t2) := by
  have hfirst : (applyDecision t op).samplingDecision =
      match op with
      | DecisionOp.keep => SamplingDecision.keep
      | DecisionOp.drop => SamplingDecision.drop := by
    cases op <;> simp [applyDecision, Trace.keep, Trace.drop, h]
  refine ⟨hfirst, ?_, ?_⟩
  · have hne : (applyDecision t op).samplingDecision ≠ SamplingDecision.none := by
      rw [hfirst]
      cases op <;> simp
    rw [foldl_applyDecision_fixed ops _ hne]
  · intro t2 op2 h2
    cases op2 <;> simp [applyDecision, Trace.keep, Trace.drop, h2]

/-- Witness for C5 at a concrete trace and call sequence. -/
theorem c5_witness :
    (applyDecision newTrace DecisionOp.keep).samplingDecision = SamplingDecision.keep ∧
    (List.foldl applyDecision (applyDecision newTrace DecisionOp.keep)
        [DecisionOp.drop, DecisionOp.keep]).samplingDecision =
      (applyDecision newTrace DecisionOp.keep).samplingDecision := by
  have h := c5_decision_first_wins newTrace DecisionOp.keep
    [DecisionOp.drop, DecisionOp.keep] rfl
  exact ⟨h.1, h.2.1⟩

/-! ## C4 -/

/-- C4: `setSamplingPriorityLocked` on a locked buffer reports not
updated and changes nothing; on an unlocked buffer it always stores
the new priority, stores the decision-maker tag and reports updated
when the priority is positive, the sampler known and the tag value
absent or different (this taking precedence over the priority-changed
signal), removes the tag when the priority is non-positive, and
otherwise reports whether the stored priority was unset or different. -/
theorem c4_setSamplingPriorityLocked_spec (t : Trace) (p : Int) (sampler : SamplerName) :
    (t.locked = true → setSamplingPriorityLocked t p sampler = (t, false)) ∧
    (t.locked = false →
      (setSamplingPriorityLocked t p sampler).1.priority = some p ∧
      (p > 0 ∧ sampler ≠ samplerUnknown ∧
          mapGet t.propagatingTags keyDecisionMaker ≠ some (samplerToDM sampler) →
        mapGet (setSamplingPriorityLocked t p sampler).1.propagatingTags keyDecisionMaker =
            some (samplerToDM sampler) ∧
          (setSamplingPriorityLocked t p sampler).2 = true) ∧
      (p ≤ 0 →
        mapGet (setSamplingPriorityLocked t p sampler).1.propagatingTags keyDecisionMaker =
          Option.none) ∧
      (¬ (p > 0 ∧ sampler ≠ samplerUnknown ∧
            mapGet t.propagatingTags keyDecisionMaker ≠ some (samplerToDM sampler)) →
        ((setSamplingPriorityLocked t p sampler).2 = true ↔ t.priority ≠ some p))) := by
  constructor
  · intro hl
    simp [setSamplingPriorityLocked, hl]
  · intro hl
    refine ⟨?_, ?_, ?_, ?_⟩
    · by_cases h1 : p > 0 ∧ sampler ≠ samplerUnknown
      · by_cases h2 : mapGet t.propagatingTags keyDecisionMaker ≠ some (samplerToDM sampler)
        · simp [setSamplingPriorityLocked, hl, h1, h2]
        · simp [setSamplingPriorityLocked, hl, h1, h2]
      · by_cases h3 : p ≤ 0 ∧ (mapGet t.propagatingTags keyDecisionMaker).isSome
        · simp [setSamplingPriorityLocked, hl, h1, h3]
        · simp [setSamplingPriorityLocked, hl, h1, h3]
    · rintro ⟨hp, hs, hdm⟩
      simp only [setSamplingPriorityLocked, hl, Bool.false_eq_true, if_false]
      rw [if_pos ⟨hp, hs⟩]
      have hdm' : mapGet ({ t with priority := some p } : Trace).propagatingTags
          keyDecisionMaker ≠ some (samplerToDM sampler) := hdm
      rw [if_pos hdm']
      exact ⟨mapGet_mapSet_self _ _ _, rfl⟩
    · intro hp0
      have h1 : ¬ (p > 0 ∧ sampler ≠ samplerUnknown) := by
        rintro ⟨hp, _⟩
        omega
      simp only [setSamplingPriorityLocked, hl, Bool.false_eq_true, if_false]
      rw [if_neg h1]
      by_cases h3 : (mapGet t.propagatingTags keyDecisionMaker).isSome
      · rw [if_pos ⟨hp0, h3⟩]
        exact mapGet_mapDel_self _ _
      · rw [if_neg (by
          rintro ⟨_, hsome⟩
          exact h3 hsome)]
        simpa [Option.isSome_iff_exists] using
          (Option.not_isSome_iff_eq_none.mp h3)
    · intro hno
      by_cases h1 : p > 0 ∧ sampler ≠ samplerUnknown
      · have h2 : ¬ mapGet t.propagatingTags keyDecisionMaker ≠ some (samplerToDM sampler) := by
          intro hc
          exact hno ⟨h1.1, h1.2, hc⟩
        simp [setSamplingPriorityLocked, hl, h1, h2]
      · by_cases h3 : p ≤ 0 ∧ (mapGet t.propagatingTags keyDecisionMaker).isSome
        · simp [setSamplingPriorityLocked, hl, h1, h3]
        · simp [setSamplingPriorityLocked, hl, h1, h3]

/-- Witness for C4 at a concrete unlocked buffer, positive priority
and known sampler. -/
theorem c4_witness :
    (setSamplingPriorityLocked newTrace 2 3).1.priority = some (2 : Int) ∧
    mapGet (setSamplingPriorityLocked newTrace 2 3).1.propagatingTags keyDecisionMaker =
      some "-3" ∧
    (setSamplingPriorityLocked newTrace 2 3).2 = true := by
  have h := (c4_setSamplingPriorityLocked_spec newTrace 2 3).2 rfl
  have hdm := h.2.1 (by refine ⟨by norm_num, by decide, by decide⟩)
  exact ⟨h.1, hdm.1, hdm.2⟩

/-! ## C7 -/

/-- C7 counterexample: `SpanLinks` has no nil-receiver guard, so on a
nil context it dereferences the receiver and fails instead of
returning an empty slice, refuting the claim that every listed
accessor is nil-safe. -/
theorem c7_counterexample : ctxSpanLinks Option.none = Except.error () := rfl

/-- C7 amended: every public read accessor except `SpanLinks` —
`SpanID`, `TraceID`, `TraceIDBytes`, `TraceIDLower`, `TraceIDUpper`,
`SamplingPriority` and `ForeachBaggageItem` — returns the zero value or
empty sentinel on a nil context; `SpanLinks` dereferences the nil
receiver and fails. -/
theorem c7_nil_accessors_amended :
    ctxSpanID Option.none = 0 ∧
    ctxTraceID Option.none = TraceIDZero ∧
    emptyTraceID.HexEncoded = TraceIDZero ∧
    ctxTraceIDBytes Option.none = emptyTraceID ∧
    ctxTraceIDLower Option.none = 0 ∧
    ctxTraceIDUpper Option.none = 0 ∧
    ctxSamplingPriority Option.none = (0, false) ∧
    (∀ handler, ctxForeachBaggageItem Option.none handler = []) ∧
    ctxSpanLinks Option.none = Except.error () := by
  refine ⟨rfl, rfl, ?_, rfl, rfl, rfl, rfl, fun _ => rfl, rfl⟩
  decide

/-! ## C8 -/

/-- C8: on a finishing outbound (client/producer) span with the
default-peer-service flag enabled, no `peer.service` tag, a Cassandra
`db.system` tag and contact points V, `setPeerService` sets
`peer.service` to V with provenance `db.cassandra.contact.points`,
without falling back to the network-destination/host tags even when
they are present (the span's remaining tags are arbitrary, apart from
the higher-priority aws branch being absent). -/
theorem c8_peer_service_cassandra (s : Span) (mappings : List (String × String))
    (V : String)
    (hkind : mapGet s.meta extSpanKind = some extSpanKindClient ∨
      mapGet s.meta extSpanKind = some extSpanKindProducer)
    (hps : mapGet s.meta extPeerService = Option.none)
    (haws : mapGet s.meta "aws_service" = Option.none)
    (hdb : mapGet s.meta extDBSystem = some extDBSystemCassandra)
    (hcp : mapGet s.meta extCassandraContactPoints = some V)
    (hmap : mapGet mappings V = Option.none) :
    mapGet (setPeerService s true mappings).meta extPeerService = some V ∧
    mapGet (setPeerService s true mappings).meta keyPeerServiceSource =
      some extCassandraContactPoints := by
  have hsrc : setPeerServiceFromSource s = (s.setMeta extPeerService V,
      extCassandraContactPoints) := by
    simp only [setPeerServiceFromSource, firstSource, haws, hdb, hcp,
      Option.isSome_none, Bool.false_eq_true, if_false, if_true, if_pos rfl]
  have h1 : mapGet ((s.setMeta extPeerService V).setMeta keyPeerServiceSource
      extCassandraContactPoints).meta extPeerService = some V := by
    simp only [Span.setMeta]
    rw [mapGet_mapSet_ne _ _ _ _ (by decide)]
    exact mapGet_mapSet_self _ _ _
  have h2 : mapGet ((s.setMeta extPeerService V).setMeta keyPeerServiceSource
      extCassandraContactPoints).meta keyPeerServiceSource =
      some extCassandraContactPoints := by
    simp only [Span.setMeta]
    exact mapGet_mapSet_self _ _ _
  have hres : setPeerService s true mappings =
      (s.setMeta extPeerService V).setMeta keyPeerServiceSource
        extCassandraContactPoints := by
    rcases hkind with hk | hk <;>
    · simp only [setPeerService, hps, Option.isSome_none, Bool.false_eq_true, if_false,
        hk, Option.getD_some, hsrc]
      rw [if_pos (by decide)]
      rw [if_neg (by decide)]
      simp only [h1, Option.getD_some, hmap]
  rw [hres]
  exact ⟨h1, h2⟩

/-- Witness for C8 at a concrete Cassandra client span carrying all
three network-destination tags. -/
theorem c8_witness :
    mapGet (setPeerService wSpanC8 true []).meta extPeerService =
      some "10.0.0.1,10.0.0.2" ∧
    mapGet (setPeerService wSpanC8 true []).meta keyPeerServiceSource =
      some extCassandraContactPoints :=
  c8_peer_service_cassandra wSpanC8 [] "10.0.0.1,10.0.0.2"
    (Or.inl (by decide)) (by decide) (by decide) (by decide) (by decide) (by decide)

/-! ## C6 -/

/-- C6 evidence: the code can fail on the finish path.  On a non-full
three-span buffer whose sampling priority was never set, with a
concrete tracer whose partial flush is enabled at minimum 2 and one
span already finished and counted, finishing a second span fires the
partial flush, which dereferences the unset (nil) priority pointer — a
runtime panic, contradicting the claim that `finishedOne` never
fails. -/
theorem c6_partial_flush_unset_priority_panics :
    finishedOne wEnvOn wTraceBug (wSpan 2) = Except.error () := by rfl

/-! ## C10 -/

/-- C10: with no registered global tracer, `finishedOne` on a non-full
buffer only marks the span finished (in the span object and, through
pointer aliasing, in the buffered copy) and increments the finished
counter; no chunk is submitted and the buffer's tags, propagating
tags, priority, locked flag, sampling decision, root and full flag are
unchanged, even when every buffered span is now finished. -/
theorem c10_finish_without_tracer (env : Env) (t : Trace) (s : Span)
    (htr : env.tracer = Option.none) (hfull : t.full = false)
    (halias : ∀ x ∈ t.spans, x.sid = s.sid → x = s) :
    finishedOne env t s =
      Except.ok ⟨{ t with
          spans := (t.spans.map (fun x => if x.sid = s.sid then markFinished x else x)),
          finished := t.finished + 1 },
        markFinished s, Option.none⟩ := by
  have hupd : updAt t.spans (markFinished s).sid (fun _ => markFinished s) =
      t.spans.map (fun x => if x.sid = s.sid then markFinished x else x) := by
    unfold updAt
    apply List.map_congr_left
    intro x hx
    have hsid : (markFinished s).sid = s.sid := rfl
    rw [hsid]
    by_cases hxe : x.sid = s.sid
    · rw [if_pos hxe, if_pos hxe, halias x hx hxe]
    · rw [if_neg hxe, if_neg hxe]
  simp only [finishedOne, hupd]
  have hfull2 : ({ t with
      spans := (t.spans.map (fun x => if x.sid = s.sid then markFinished x else x)) } :
      Trace).full = false := hfull
  rw [if_neg (by rw [hfull2]; exact Bool.false_ne_true)]
  rw [htr]

/-- Witness for C10: a one-span buffer, no tracer registered. -/
theorem c10_witness :
    finishedOne wEnvNone { newTrace with spans := [wSpan 1] } (wSpan 1) =
      Except.ok ⟨{ { newTrace with spans := [wSpan 1] } with
          spans := ([wSpan 1].map (fun x =>
            if x.sid = (wSpan 1).sid then markFinished x else x)),
          finished := { newTrace with spans := [wSpan 1] }.finished + 1 },
        markFinished (wSpan 1), Option.none⟩ :=
  c10_finish_without_tracer wEnvNone { newTrace with spans := [wSpan 1] } (wSpan 1)
    rfl rfl (by decide)

/-! ## C3 -/

/-- C3: pushing onto a buffer already at the 100,000-span capacity sets
the full flag and discards the whole span collection; a full buffer
silently discards every later push; a later finish only marks its span
finished and returns before counting or flushing; and over any
subsequent operation sequence the buffer stays full and no chunk is
ever submitted, with no error returned to any caller. -/
theorem c3_capacity_overflow :
    (∀ t sp, t.full = false → t.spans.length = traceMaxSize →
      push t sp = { t with full := true, spans := [] }) ∧
    (∀ t sp, t.full = true → push t sp = t) ∧
    (∀ env t s, t.full = true →
      finishedOne env t s =
        Except.ok ⟨{ t with spans := (updAt t.spans s.sid (fun _ => markFinished s)) },
          markFinished s, Option.none⟩) ∧
    (∀ env t s, t.full = true → t.spans = [] →
      finishedOne env t s = Except.ok ⟨t, markFinished s, Option.none⟩) ∧
    (∀ env t ops, t.full = true →
      ∃ t2, runBufOps env t ops =
          Except.ok (t2, List.replicate ops.length Option.none) ∧
        t2.full = true) := by
  have hcap : ∀ t sp, t.full = false → t.spans.length = traceMaxSize →
      push t sp = { t with full := true, spans := [] } := by
    intro t sp hf hlen
    simp [push, hf, hlen]
  have hfin : ∀ env t s, t.full = true →
      finishedOne env t s =
        Except.ok ⟨{ t with spans := (updAt t.spans s.sid (fun _ => markFinished s)) },
          markFinished s, Option.none⟩ := fun env t s h => finishedOne_full env t s h
  refine ⟨hcap, fun t sp h => push_full t sp h, hfin, ?_, ?_⟩
  · intro env t s h hsp
    rw [hfin env t s h]
    have : ({ t with spans := (updAt t.spans s.sid (fun _ => markFinished s)) } :
        Trace) = t := by
      have : updAt t.spans s.sid (fun _ => markFinished s) = t.spans := by
        rw [hsp]
        rfl
      rw [this]
    rw [this]
  · intro env t ops h
    induction ops generalizing t with
    | nil => exact ⟨t, rfl, h⟩
    | cons op rest ih =>
      cases op with
      | pushOp sp =>
        have hstep : applyBufOp env t (BufOp.pushOp sp) =
            Except.ok (push t sp, Option.none) := rfl
        obtain ⟨t2, hrun, h2⟩ := ih (push t sp) (by rw [push_full t sp h]; exact h)
        refine ⟨t2, ?_, h2⟩
        rw [runBufOps_cons, hstep, except_bind_ok, hrun, except_bind_ok]
        simp [List.replicate_succ]
      | finishOp s =>
        have hstep : applyBufOp env t (BufOp.finishOp s) =
            Except.ok ({ t with
                spans := (updAt t.spans s.sid (fun _ => markFinished s)) },
              Option.none) := by
          simp only [applyBufOp]
          rw [finishedOne_full env t s h]
          rfl
        obtain ⟨t2, hrun, h2⟩ :=
          ih { t with spans := (updAt t.spans s.sid (fun _ => markFinished s)) } h
        refine ⟨t2, ?_, h2⟩
        rw [runBufOps_cons, hstep, except_bind_ok, hrun, except_bind_ok]
        simp [List.replicate_succ]

/-- Witness for C3: an at-capacity buffer overflows on push; a full
buffer absorbs pushes and finishes with no chunk. -/
theorem c3_witness :
    push wTraceCap (wSpan 1) = { wTraceCap with full := true, spans := [] } ∧
    push wTraceFull (wSpan 1) = wTraceFull ∧
    finishedOne wEnvOff wTraceFull (wSpan 1) =
      Except.ok ⟨wTraceFull, markFinished (wSpan 1), Option.none⟩ ∧
    (∃ t2, runBufOps wEnvOff wTraceFull
        [BufOp.pushOp (wSpan 1), BufOp.finishOp (wSpan 2)] =
          Except.ok (t2, [Option.none, Option.none]) ∧ t2.full = true) := by
  refine ⟨c3_capacity_overflow.1 wTraceCap (wSpan 1) rfl (by
      simp [wTraceCap, newTrace, List.length_replicate]),
    c3_capacity_overflow.2.1 wTraceFull (wSpan 1) rfl,
    c3_capacity_overflow.2.2.2.1 wEnvOff wTraceFull (wSpan 1) rfl rfl, ?_⟩
  obtain ⟨t2, hrun, h2⟩ := c3_capacity_overflow.2.2.2.2 wEnvOff wTraceFull
    [BufOp.pushOp (wSpan 1), BufOp.finishOp (wSpan 2)] rfl
  exact ⟨t2, by simpa using hrun, h2⟩

/-! ## Hex lemmas for C9 -/

theorem hexCharVal_hexDigitChar : ∀ n, n < 16 → hexCharVal (hexDigitChar n) = some n := by
  decide

theorem hexDigitChar_mem (n : Nat) : hexDigitChar n ∈ hexDigits := by
  unfold hexDigitChar
  rcases Nat.lt_or_ge n 16 with h | h
  · interval_cases n <;> decide
  · rw [List.getD_eq_getElem?_getD, List.getElem?_eq_none (by
      simp only [hexDigits]
      simp
      omega)]
    decide

theorem foldlBE_ge (bs : List Nat) : ∀ a : Nat,
    a ≤ bs.foldl (fun x b => x * 256 + b) a := by
  induction bs with
  | nil => intro a; simp
  | cons b rest ih =>
    intro a
    simp only [List.foldl_cons]
    exact le_trans (by omega) (ih (a * 256 + b))

theorem parseHexAux_encode (bs : List Nat) : ∀ acc : Nat,
    (∀ b ∈ bs, b < 256) →
    bs.foldl (fun x b => x * 256 + b) acc < 2 ^ 64 →
    parseHexAux ((bs.map byteHex).flatten) acc =
      some (bs.foldl (fun x b => x * 256 + b) acc) := by
  induction bs with
  | nil => intro acc _ _; rfl
  | cons b rest ih =>
    intro acc hb hlt
    have hb0 : b < 256 := hb b (List.mem_cons_self _ _)
    have hfold : rest.foldl (fun x b => x * 256 + b) (acc * 256 + b) < 2 ^ 64 := by
      simpa using hlt
    have hge : acc * 256 + b ≤ rest.foldl (fun x b => x * 256 + b) (acc * 256 + b) :=
      foldlBE_ge rest _
    have h2 : acc * 256 + b < 2 ^ 64 := lt_of_le_of_lt hge hfold
    have h1 : acc * 16 + b / 16 < 2 ^ 64 := by omega
    have heq : (acc * 16 + b / 16) * 16 + b % 16 = acc * 256 + b := by omega
    simp only [List.map_cons, List.flatten_cons, byteHex, List.cons_append, List.nil_append]
    rw [parseHexAux, hexCharVal_hexDigitChar _ (by omega)]
    simp only [if_pos h1]
    rw [parseHexAux, hexCharVal_hexDigitChar _ (by omega)]
    simp only [heq, if_pos h2]
    rw [ih (acc * 256 + b) (fun x hx => hb x (List.mem_cons_of_mem _ hx)) hfold]
    simp

theorem beUint64_putUint64BE (u : Nat) : beUint64 (putUint64BE u) = u % 2 ^ 64 := by
  simp only [beUint64, putUint64BE, List.foldl_cons, List.foldl_nil]
  omega

theorem putUint64BE_bytes_lt (u : Nat) : ∀ b ∈ putUint64BE u, b < 256 := by
  intro b hb
  simp only [putUint64BE, List.mem_cons, List.not_mem_nil, or_false] at hb
  rcases hb with h | h | h | h | h | h | h | h <;> subst h <;> omega

theorem parseHexAux_lt (cs : List Char) : ∀ acc u : Nat, acc < 2 ^ 64 →
    parseHexAux cs acc = some u → u < 2 ^ 64 := by
  induction cs with
  | nil =>
    intro acc u h hp
    simp only [parseHexAux, Option.some.injEq] at hp
    omega
  | cons c rest ih =>
    intro acc u h hp
    rw [parseHexAux] at hp
    cases hv : hexCharVal c with
    | none => rw [hv] at hp; cases hp
    | some d =>
      rw [hv] at hp
      simp only at hp
      by_cases hlt : acc * 16 + d < 2 ^ 64
      · rw [if_pos hlt] at hp
        exact ih _ _ hlt hp
      · rw [if_neg hlt] at hp
        cases hp

theorem parseUintHex64_lt (s : String) (u : Nat) (h : parseUintHex64 s = some u) :
    u < 2 ^ 64 := by
  unfold parseUintHex64 at h
  by_cases he : s.isEmpty
  · rw [if_pos he] at h; cases h
  · rw [if_neg he] at h
    exact parseHexAux_lt s.data 0 u (by norm_num) h

theorem hexEncode_put_not_empty (u : Nat) :
    (hexEncode (putUint64BE u)).isEmpty = false := by
  rw [Bool.eq_false_iff]
  intro h
  have h2 : hexEncode (putUint64BE u) = "" := (String.isEmpty_iff _).mp h
  have h3 : ((putUint64BE u).map byteHex).flatten = [] := by
    have hd := String.ext_iff.mp h2
    simpa [hexEncode] using hd
  simp [putUint64BE, byteHex] at h3

theorem parse_hexEncode_put (u : Nat) (hu : u < 2 ^ 64) :
    parseUintHex64 (hexEncode (putUint64BE u)) = some u := by
  unfold parseUintHex64
  rw [if_neg (by rw [hexEncode_put_not_empty]; exact Bool.false_ne_true)]
  have hdata : (hexEncode (putUint64BE u)).data = ((putUint64BE u).map byteHex).flatten :=
    rfl
  rw [hdata]
  have hfold : (putUint64BE u).foldl (fun x b => x * 256 + b) 0 = u % 2 ^ 64 :=
    beUint64_putUint64BE u
  rw [parseHexAux_encode (putUint64BE u) 0 (putUint64BE_bytes_lt u) (by
    rw [hfold]
    exact Nat.lt_of_le_of_lt (Nat.mod_le _ _) (by omega))]
  rw [hfold, Nat.mod_eq_of_lt hu]

theorem UpperHex_SetUpper (t : traceID) (u : Nat) :
    (t.SetUpper u).UpperHex = hexEncode (putUint64BE u) := rfl

theorem hexEncode_put_length (u : Nat) : (hexEncode (putUint64BE u)).length = 16 := by
  simp [hexEncode, putUint64BE, byteHex, String.length]

theorem hexEncode_put_chars (u : Nat) :
    ∀ c ∈ (hexEncode (putUint64BE u)).data, c ∈ hexDigits := by
  intro c hc
  have hc2 : c ∈ ((putUint64BE u).map byteHex).flatten := hc
  rw [List.mem_flatten] at hc2
  obtain ⟨l, hl, hcl⟩ := hc2
  rw [List.mem_map] at hl
  obtain ⟨b, _, hb⟩ := hl
  subst hb
  simp only [byteHex, List.mem_cons, List.not_mem_nil, or_false] at hcl
  rcases hcl with h | h <;> subst h <;> exact hexDigitChar_mem _

theorem applyTidOps_upper_zero (ops : List TidOp) :
    ∀ t : traceID, t.bytes.take 8 = List.replicate 8 0 →
      (∀ op ∈ ops, storesNonzeroUpper op = false) →
      (applyTidOps t ops).bytes.take 8 = List.replicate 8 0 := by
  induction ops with
  | nil => intro t ht _; exact ht
  | cons op rest ih =>
    intro t ht hall
    have hop := hall op (List.mem_cons_self _ _)
    have hstep : (applyTidOp t op).bytes.take 8 = List.replicate 8 0 := by
      cases op with
      | setLower u =>
        simp only [applyTidOp, traceID.SetLower]
        have hlen : (t.bytes.take 8).length = 8 := by rw [ht]; simp
        rw [List.take_left' hlen]
        exact ht
      | setUpper u =>
        have hz : u % 2 ^ 64 = 0 := by simpa [storesNonzeroUpper] using hop
        simp only [applyTidOp, traceID.SetUpper]
        rw [show List.take 8 (putUint64BE u ++ t.bytes.drop 8) = putUint64BE u from rfl]
        simp only [putUint64BE, List.replicate, List.cons.injEq, and_true]
        omega
      | setUpperFromHex s =>
        simp only [applyTidOp, traceID.SetUpperFromHex]
        cases hp : parseUintHex64 s with
        | none => simpa [hp] using ht
        | some u =>
          have hz : u = 0 := by
            by_contra hc
            simp [storesNonzeroUpper, hp, hc] at hop
          subst hz
          simp only [hp]
          rw [show List.take 8 (traceID.SetUpper t 0).bytes = putUint64BE 0 from rfl]
          decide
    have hrest : applyTidOps t (op :: rest) = applyTidOps (applyTidOp t op) rest := rfl
    rw [hrest]
    exact ih _ hstep (fun op2 h2 => hall op2 (List.mem_cons_of_mem _ h2))

/-! ## C9 -/

/-- C9 counterexample: storing a non-zero upper half and then
overwriting it with zero leaves `HasUpper` false although a setter did
store a non-zero value, refuting the claimed "false exactly when
neither setter ever stored a non-zero value". -/
theorem c9_counterexample :
    (applyTidOps emptyTraceID [TidOp.setUpper 5, TidOp.setUpper 0]).HasUpper = false ∧
    storesNonzeroUpper (TidOp.setUpper 5) = true := by decide

/-- C9 amended: for every hex string that parses as an unsigned 64-bit
integer, `SetUpperFromHex` succeeds with exactly a `SetUpper` of the
parsed value, and `UpperHex` then returns the 16-character lowercase
hex form of that value (16 hex-digit characters that parse back to the
value); a malformed string is a parse error leaving the identifier
unchanged; `HasUpper` is true iff any of the upper 8 bytes is
non-zero, hence false whenever neither setter ever stored a non-zero
value — but not only then, since an upper half overwritten with zero
also reads as absent. -/
theorem c9_trace_id_roundtrip_amended :
    (∀ (t : traceID) (s : String) (u : Nat), parseUintHex64 s = some u →
      t.SetUpperFromHex s = Except.ok (t.SetUpper u) ∧
      (t.SetUpper u).UpperHex = hexEncode (putUint64BE u) ∧
      ((t.SetUpper u).UpperHex).length = 16 ∧
      (∀ c ∈ ((t.SetUpper u).UpperHex).data, c ∈ hexDigits) ∧
      parseUintHex64 ((t.SetUpper u).UpperHex) = some u) ∧
    (∀ (t : traceID) (s : String), parseUintHex64 s = Option.none →
      t.SetUpperFromHex s = Except.error ()) ∧
    (∀ t : traceID, t.HasUpper = true ↔ ∃ b ∈ t.bytes.take 8, b ≠ 0) ∧
    (∀ ops : List TidOp, (∀ op ∈ ops, storesNonzeroUpper op = false) →
      (applyTidOps emptyTraceID ops).HasUpper = false) := by
  refine ⟨?_, ?_, ?_, ?_⟩
  · intro t s u hp
    have hu : u < 2 ^ 64 := parseUintHex64_lt s u hp
    have hhex : (t.SetUpper u).UpperHex = hexEncode (putUint64BE u) :=
      UpperHex_SetUpper t u
    refine ⟨?_, hhex, ?_, ?_, ?_⟩
    · unfold traceID.SetUpperFromHex
      rw [hp]
    · rw [hhex]; exact hexEncode_put_length u
    · rw [hhex]; exact hexEncode_put_chars u
    · rw [hhex]; exact parse_hexEncode_put u hu
  · intro t s hp
    unfold traceID.SetUpperFromHex
    rw [hp]
  · intro t
    simp [traceID.HasUpper, List.any_eq_true]
  · intro ops hall
    have hz := applyTidOps_upper_zero ops emptyTraceID (by decide) hall
    simp [traceID.HasUpper, hz]

/-- Witness for C9 at a concrete mixed-case hex string and a malformed
string. -/
theorem c9_witness :
    emptyTraceID.SetUpperFromHex "Ab12" = Except.ok (emptyTraceID.SetUpper 43794) ∧
    (emptyTraceID.SetUpper 43794).UpperHex = "000000000000ab12" ∧
    parseUintHex64 ((emptyTraceID.SetUpper 43794).UpperHex) = some 43794 ∧
    emptyTraceID.SetUpperFromHex "zz" = Except.error () ∧
    (applyTidOps emptyTraceID [TidOp.setLower 7]).HasUpper = false := by
  have h := c9_trace_id_roundtrip_amended
  have h1 := h.1 emptyTraceID "Ab12" 43794 (by decide)
  refine ⟨h1.1, ?_, h1.2.2.2.2, h.2.1 emptyTraceID "zz" (by decide),
    h.2.2.2 [TidOp.setLower 7] (by decide)⟩
  rw [h1.2.1]
  decide

/-! ## Lemmas on keyed span updates and the adornment block -/

theorem length_updAt (l : List Span) (i : Nat) (f : Span → Span) :
    (updAt l i f).length = l.length := by
  simp [updAt]

theorem sidsOf_updAt_const (l : List Span) (i : Nat) (a : Span) (ha : a.sid = i) :
    sidsOf (updAt l i (fun _ => a)) = sidsOf l := by
  unfold sidsOf updAt
  rw [List.map_map]
  apply List.map_congr_left
  intro x _
  by_cases h : x.sid = i
  · simp [h, ha]
  · simp [h]

theorem updAt_const_twice (l : List Span) (i : Nat) (a b : Span) (ha : a.sid = i) :
    updAt (updAt l i (fun _ => a)) i (fun _ => b) = updAt l i (fun _ => b) := by
  unfold updAt
  rw [List.map_map]
  apply List.map_congr_left
  intro x _
  by_cases h : x.sid = i
  · simp [h, ha]
  · simp [h]

theorem updAt_id_of_not_mem (l : List Span) (i : Nat) (f : Span → Span)
    (h : i ∉ sidsOf l) : updAt l i f = l := by
  unfold updAt
  conv_rhs => rw [← List.map_id l]
  apply List.map_congr_left
  intro x hx
  have : x.sid ≠ i := by
    intro hc
    exact h (by simpa [sidsOf, hc] using List.mem_map_of_mem (fun y => y.sid) hx)
  simp [this]

theorem setMeta_sid (s : Span) (k v : String) : (s.setMeta k v).sid = s.sid := rfl

theorem setMeta_finished (s : Span) (k v : String) :
    (s.setMeta k v).finished = s.finished := rfl

theorem setMetric_sid (s : Span) (k : String) (v : Int) :
    (s.setMetric k v).sid = s.sid := rfl

theorem setMetric_finished (s : Span) (k : String) (v : Int) :
    (s.setMetric k v).finished = s.finished := rfl

theorem foldl_setMeta_pres (l : List (String × String)) :
    ∀ s : Span, (l.foldl (fun a p => a.setMeta p.1 p.2) s).sid = s.sid ∧
      (l.foldl (fun a p => a.setMeta p.1 p.2) s).finished = s.finished := by
  induction l with
  | nil => intro s; exact ⟨rfl, rfl⟩
  | cons hd tl ih =>
    intro s
    simpa [List.foldl_cons] using ih (s.setMeta hd.1 hd.2)

theorem setTraceTags_pres (env : Env) (t : Trace) (s : Span) :
    (setTraceTags env t s).sid = s.sid ∧ (setTraceTags env t s).finished = s.finished := by
  unfold setTraceTags
  have h1 := foldl_setMeta_pres t.tags s
  have h2 := foldl_setMeta_pres t.propagatingTags
    (t.tags.foldl (fun a p => a.setMeta p.1 p.2) s)
  have h3 := foldl_setMeta_pres env.gitTags
    (t.propagatingTags.foldl (fun a p => a.setMeta p.1 p.2)
      (t.tags.foldl (fun a p => a.setMeta p.1 p.2) s))
  have hcs : (env.gitTags.foldl (fun a p => a.setMeta p.1 p.2)
      (t.propagatingTags.foldl (fun a p => a.setMeta p.1 p.2)
        (t.tags.foldl (fun a p => a.setMeta p.1 p.2) s))).sid = s.sid := by
    rw [h3.1, h2.1, h1.1]
  have hcf : (env.gitTags.foldl (fun a p => a.setMeta p.1 p.2)
      (t.propagatingTags.foldl (fun a p => a.setMeta p.1 p.2)
        (t.tags.foldl (fun a p => a.setMeta p.1 p.2) s))).finished = s.finished := by
    rw [h3.2, h2.2, h1.2]
  dsimp only
  constructor <;>
  · split <;> split <;> (try split) <;>
      simp_all [setMeta_sid, setMeta_finished]

theorem firstSource_pres (s : Span) : ∀ srcs : List String,
    (firstSource s srcs).1.sid = s.sid ∧ (firstSource s srcs).1.finished = s.finished := by
  intro srcs
  induction srcs with
  | nil => exact ⟨rfl, rfl⟩
  | cons hd tl ih =>
    unfold firstSource
    cases mapGet s.meta hd with
    | none => exact ih
    | some v => exact ⟨rfl, rfl⟩

theorem setPeerServiceFromSource_pres (s : Span) :
    (setPeerServiceFromSource s).1.sid = s.sid ∧
      (setPeerServiceFromSource s).1.finished = s.finished := by
  unfold setPeerServiceFromSource
  exact firstSource_pres s _

theorem setPeerService_pres (s : Span) (d : Bool) (m : List (String × String)) :
    (setPeerService s d m).sid = s.sid ∧ (setPeerService s d m).finished = s.finished := by
  obtain ⟨h1, h2⟩ := setPeerServiceFromSource_pres s
  unfold setPeerService
  dsimp only
  by_cases hio : (mapGet s.meta extPeerService).isSome = true
  · rw [if_pos hio]
    dsimp only
    split <;> exact ⟨by simp [setMeta_sid], by simp [setMeta_finished]⟩
  · rw [if_neg hio]
    by_cases hob : (((mapGet s.meta extSpanKind).getD "" == extSpanKindClient ||
        (mapGet s.meta extSpanKind).getD "" == extSpanKindProducer) && d) = true
    · rw [if_pos hob]
      by_cases hempty : ((setPeerServiceFromSource s).2 == "") = true
      · rw [if_pos hempty]
        exact ⟨rfl, rfl⟩
      · rw [if_neg hempty]
        dsimp only
        split <;>
          exact ⟨by simp [setMeta_sid, h1], by simp [setMeta_finished, h2]⟩
    · rw [if_neg hob]
      exact ⟨rfl, rfl⟩

theorem finishAdorn_trace (env : Env) (tc : TracerConf) (t : Trace) (s : Span) :
    ∃ lk : Bool, (finishAdorn env tc t s).1 = { t with locked := lk } := by
  unfold finishAdorn
  dsimp only
  repeat' split
  all_goals first
    | exact ⟨true, rfl⟩
    | exact ⟨t.locked, rfl⟩

theorem finishAdorn_span (env : Env) (tc : TracerConf) (t : Trace) (s : Span) :
    (finishAdorn env tc t s).2.sid = s.sid ∧
      (finishAdorn env tc t s).2.finished = s.finished := by
  obtain ⟨hps, hpf⟩ := setPeerService_pres s tc.peerServiceDefaults tc.peerServiceMappings
  unfold finishAdorn
  dsimp only
  constructor <;>
  · repeat' (first | split | dsimp only)
    all_goals simp_all [setTraceTags_pres, setMeta_sid, setMeta_finished,
      setMetric_sid, setMetric_finished]

theorem mem_updAt_const (l : List Span) (i : Nat) (a : Span) (h : i ∈ sidsOf l) :
    a ∈ updAt l i (fun _ => a) := by
  obtain ⟨y, hy, hsid⟩ := List.mem_map.mp h
  exact List.mem_map.mpr ⟨y, hy, by simp [hsid]⟩

theorem finishedOne_unfold (env : Env) (tri : TracerImpl) (t : Trace) (s : Span)
    (htr : env.tracer = some tri) (hfull : t.full = false) :
    ∃ (s5 : Span) (lk : Bool),
      s5.sid = s.sid ∧ s5.finished = true ∧
      finishedOne env t s =
        (let t3 : Trace := { t with
            spans := (updAt t.spans s.sid (fun _ => s5)),
            finished := t.finished + 1, locked := lk }
         if t3.spans.length = t3.finished then
           Except.ok ⟨{ (if tri.isConcrete then { t3 with finished := 0 } else t3) with
               spans := [] }, s5,
             if tri.isConcrete then
               some ⟨t3.spans, t3.samplingDecision = SamplingDecision.keep⟩
             else Option.none⟩
         else if tri.conf.partialFlush ∧
             tri.conf.partialFlushMinSpans ≤ (t3.finished : Int) then
           match t3.spans.filter (fun x => x.finished), t3.priority with
           | f0 :: frest, some p =>
             let f1 := f0.setMetric keySamplingPriority p
             let f2 := if ¬ headSid t3.spans = some s5.sid then setTraceTags env t3 f1
               else f1
             let s6 := if f2.sid = s5.sid then f2 else s5
             Except.ok ⟨{ (if tri.isConcrete then { t3 with finished := 0 } else t3) with
                 spans := (t3.spans.filter (fun x => ! x.finished)) }, s6,
               if tri.isConcrete then
                 some ⟨f2 :: frest, t3.samplingDecision = SamplingDecision.keep⟩
               else Option.none⟩
           | _, _ => Except.error ()
         else Except.ok ⟨t3, s5, Option.none⟩) := by
  have hm : (markFinished s).sid = s.sid := rfl
  obtain ⟨lk, hT⟩ := finishAdorn_trace env tri.conf
    { t with
      spans := (updAt t.spans s.sid (fun _ => markFinished s)),
      finished := t.finished + 1 } (markFinished s)
  obtain ⟨hsid, hfin⟩ := finishAdorn_span env tri.conf
    { t with
      spans := (updAt t.spans s.sid (fun _ => markFinished s)),
      finished := t.finished + 1 } (markFinished s)
  refine ⟨(finishAdorn env tri.conf
    { t with
      spans := (updAt t.spans s.sid (fun _ => markFinished s)),
      finished := t.finished + 1 } (markFinished s)).2, lk, hsid, hfin, ?_⟩
  unfold finishedOne
  simp only [hm]
  rw [if_neg (show ¬ (({ t with
      spans := (updAt t.spans s.sid (fun _ => markFinished s)) } : Trace).full = true) by
    rw [hfull]
    exact Bool.false_ne_true)]
  rw [htr]
  dsimp only
  rw [hT, hsid]
  dsimp only
  simp only [hm]
  rw [updAt_const_twice t.spans s.sid (markFinished s) _ rfl]

theorem finishedOne_no_flush (env : Env) (tri : TracerImpl) (t : Trace) (s : Span)
    (htr : env.tracer = some tri) (hfull : t.full = false)
    (hlen : t.spans.length ≠ t.finished + 1)
    (hnp : ¬ (tri.conf.partialFlush ∧
      tri.conf.partialFlushMinSpans ≤ ((t.finished + 1 : Nat) : Int))) :
    ∃ (s5 : Span) (lk : Bool), s5.sid = s.sid ∧ s5.finished = true ∧
      finishedOne env t s = Except.ok ⟨{ t with
          spans := (updAt t.spans s.sid (fun _ => s5)),
          finished := t.finished + 1, locked := lk }, s5, Option.none⟩ := by
  obtain ⟨s5, lk, hsid, hfin, heq⟩ := finishedOne_unfold env tri t s htr hfull
  refine ⟨s5, lk, hsid, hfin, ?_⟩
  rw [heq]
  dsimp only
  rw [if_neg (by
    rw [length_updAt]
    exact hlen)]
  rw [if_neg hnp]

theorem finishedOne_full_flush (env : Env) (tri : TracerImpl) (t : Trace) (s : Span)
    (htr : env.tracer = some tri) (hfull : t.full = false)
    (hconc : tri.isConcrete = true)
    (hlen : t.spans.length = t.finished + 1) :
    ∃ (s5 : Span) (lk : Bool), s5.sid = s.sid ∧ s5.finished = true ∧
      finishedOne env t s = Except.ok ⟨{ t with
          spans := ([] : List Span), finished := 0, locked := lk }, s5,
        some ⟨(updAt t.spans s.sid (fun _ => s5)),
          decide (t.samplingDecision = SamplingDecision.keep)⟩⟩ := by
  obtain ⟨s5, lk, hsid, hfin, heq⟩ := finishedOne_unfold env tri t s htr hfull
  refine ⟨s5, lk, hsid, hfin, ?_⟩
  rw [heq]
  dsimp only
  rw [if_pos (by
    rw [length_updAt]
    exact hlen)]
  simp only [hconc, if_true]

theorem finishedOne_partial_flush (env : Env) (tri : TracerImpl) (t : Trace) (s : Span)
    (p : Int)
    (htr : env.tracer = some tri) (hfull : t.full = false)
    (hconc : tri.isConcrete = true)
    (hlen : t.spans.length ≠ t.finished + 1)
    (hpf : tri.conf.partialFlush = true)
    (hmin : tri.conf.partialFlushMinSpans ≤ ((t.finished + 1 : Nat) : Int))
    (hpri : t.priority = some p)
    (hmem : s.sid ∈ sidsOf t.spans) :
    ∃ (s5 s6 : Span) (lk : Bool) (chSpans : List Span),
      s5.sid = s.sid ∧ s5.finished = true ∧
      finishedOne env t s = Except.ok ⟨{ t with
          spans := ((updAt t.spans s.sid (fun _ => s5)).filter (fun x => ! x.finished)),
          finished := 0, locked := lk }, s6,
        some ⟨chSpans, decide (t.samplingDecision = SamplingDecision.keep)⟩⟩ ∧
      sidsOf chSpans =
        sidsOf ((updAt t.spans s.sid (fun _ => s5)).filter (fun x => x.finished)) := by
  obtain ⟨s5, lk, hsid, hfin, heq⟩ := finishedOne_unfold env tri t s htr hfull
  have hmemu : s5 ∈ updAt t.spans s.sid (fun _ => s5) :=
    mem_updAt_const t.spans s.sid s5 hmem
  have hmemf : s5 ∈ (updAt t.spans s.sid (fun _ => s5)).filter (fun x => x.finished) :=
    List.mem_filter.mpr ⟨hmemu, by rw [hfin]⟩
  cases hfs : (updAt t.spans s.sid (fun _ => s5)).filter (fun x => x.finished) with
  | nil =>
    rw [hfs] at hmemf
    cases hmemf
  | cons f0 frest =>
    dsimp only at heq
    rw [if_neg (by
      rw [length_updAt]
      exact hlen)] at heq
    rw [if_pos ⟨hpf, hmin⟩, hfs, hpri] at heq
    dsimp only at heq
    simp only [hconc, if_true, ite_true, eq_self_iff_true] at heq
    rw [← hpri] at heq
    have h0 : (f0.setMetric keySamplingPriority p).sid = f0.sid := setMetric_sid f0 _ p
    have h2 : (if ¬ headSid (updAt t.spans s.sid (fun _ => s5)) = some s5.sid then
        setTraceTags env { t with
          spans := (updAt t.spans s.sid (fun _ => s5)),
          finished := t.finished + 1, locked := lk }
          (f0.setMetric keySamplingPriority p)
      else f0.setMetric keySamplingPriority p).sid = f0.sid := by
      split
      · rw [(setTraceTags_pres env _ _).1, h0]
      · exact h0
    refine ⟨s5, _, lk, _, hsid, hfin, heq, ?_⟩
    rw [hfs]
    simp only [sidsOf, List.map_cons]
    rw [h2]

theorem runFinishes_nil (env : Env) (t : Trace) : runFinishes env t [] = Except.ok (t, []) :=
  rfl

theorem runFinishes_cons (env : Env) (t : Trace) (i : Nat) (rest : List Nat) :
    runFinishes env t (i :: rest) =
      (finishSid env t i) >>= (fun r =>
        (runFinishes env r.1 rest) >>= (fun rr => Except.ok (rr.1, r.2 :: rr.2))) := rfl

theorem finishSid_of_find (env : Env) (t : Trace) (i : Nat) (s : Span)
    (res : FinishResult)
    (hfind : t.spans.find? (fun y => y.sid == i) = some s)
    (hres : finishedOne env t s = Except.ok res) :
    finishSid env t i = Except.ok (res.trace, res.chunk) := by
  unfold finishSid
  rw [hfind]
  dsimp only
  rw [hres]
  rfl

theorem find?_sid (l : List Span) (i : Nat) (h : i ∈ sidsOf l) :
    ∃ x, l.find? (fun y => y.sid == i) = some x ∧ x ∈ l ∧ x.sid = i := by
  have hex : ∃ x, x ∈ l ∧ (fun y => y.sid == i) x = true := by
    obtain ⟨y, hy, hs⟩ := List.mem_map.mp h
    exact ⟨y, hy, by simp [hs]⟩
  have hsome : (l.find? (fun y => y.sid == i)).isSome := List.find?_isSome.mpr hex
  cases hfind : l.find? (fun y => y.sid == i) with
  | none => rw [hfind] at hsome; cases hsome
  | some x =>
    refine ⟨x, rfl, List.mem_of_find?_eq_some hfind, ?_⟩
    have := List.find?_some hfind
    simpa using this

theorem filter_partition_perm (l : List Span) :
    ((l.filter (fun x => x.finished)) ++ (l.filter (fun x => ! x.finished))).Perm l :=
  List.filter_append_perm (fun x => x.finished) l

theorem filter_partition_length (l : List Span) :
    (l.filter (fun x => x.finished)).length +
      (l.filter (fun x => ! x.finished)).length = l.length := by
  have h := (filter_partition_perm l).length_eq
  simpa [List.length_append] using h

theorem filter_fin_updAt_mark (i : Nat) (a : Span) (y : Span)
    (hysid : y.sid = i) (hyf : y.finished = false) (haf : a.finished = true) :
    ∀ l : List Span, (sidsOf l).Nodup → y ∈ l →
    ((updAt l i (fun _ => a)).filter (fun x => x.finished)).length =
      (l.filter (fun x => x.finished)).length + 1 := by
  intro l
  induction l with
  | nil => intro _ hy; cases hy
  | cons hd tl ih =>
    intro hnd hy
    have hnd' : hd.sid ∉ sidsOf tl ∧ (sidsOf tl).Nodup := by
      simpa [sidsOf, List.nodup_cons] using hnd
    rcases List.mem_cons.mp hy with rfl | hy'
    · have htl : updAt tl i (fun _ => a) = tl :=
        updAt_id_of_not_mem tl i _ (hysid ▸ hnd'.1)
      have hupd : updAt (y :: tl) i (fun _ => a) = a :: tl := by
        unfold updAt at htl ⊢
        simp only [List.map_cons, if_pos hysid]
        rw [htl]
      rw [hupd]
      simp [List.filter_cons, haf, hyf]
    · have hmem : i ∈ sidsOf tl := List.mem_map.mpr ⟨y, hy', hysid⟩
      have hne : ¬ hd.sid = i := by
        intro hc
        exact hnd'.1 (hc ▸ hmem)
      have hupd : updAt (hd :: tl) i (fun _ => a) = hd :: updAt tl i (fun _ => a) := by
        unfold updAt
        simp [List.map_cons, hne]
      rw [hupd]
      by_cases hf : hd.finished = true
      · simp only [List.filter_cons, hf, if_pos, List.length_cons]
        rw [ih hnd'.2 hy']
      · simp only [List.filter_cons, hf, Bool.false_eq_true, if_false]
        exact ih hnd'.2 hy'

theorem filter_unfin_updAt_mark (i : Nat) (a : Span) (y : Span)
    (hysid : y.sid = i) (hyf : y.finished = false) (haf : a.finished = true) :
    ∀ l : List Span, (sidsOf l).Nodup → y ∈ l →
    (l.filter (fun x => ! x.finished)).length =
      ((updAt l i (fun _ => a)).filter (fun x => ! x.finished)).length + 1 := by
  intro l hnd hy
  have h1 := filter_fin_updAt_mark i a y hysid hyf haf l hnd hy
  have h2 := filter_partition_length l
  have h3 := filter_partition_length (updAt l i (fun _ => a))
  have h4 : (updAt l i (fun _ => a)).length = l.length := length_updAt l i _
  omega

theorem runFinishes_no_partial (env : Env) (tri : TracerImpl)
    (htr : env.tracer = some tri) (hconc : tri.isConcrete = true)
    (hpf : tri.conf.partialFlush = false) (sids0 : List Nat) :
    ∀ (R : List Nat), ∀ (t : Trace),
      t.full = false →
      sidsOf t.spans = sids0 →
      (∀ x ∈ t.spans, (x.finished = true ↔ x.sid ∉ R)) →
      t.finished + R.length = t.spans.length →
      R.Nodup →
      (∀ i ∈ R, i ∈ sids0) →
      R ≠ [] →
      ∃ (t2 : Trace) (c : Chunk),
        runFinishes env t R =
          Except.ok (t2, List.replicate (R.length - 1) Option.none ++ [some c]) ∧
        sidsOf c.spans = sids0 ∧
        (c.willSend = true ↔ t.samplingDecision = SamplingDecision.keep) ∧
        t2.spans = [] := by
  intro R
  induction R with
  | nil => intro t _ _ _ _ _ _ hne; exact absurd rfl hne
  | cons r R' ih =>
    intro t hfull hsids hflags hcount hnd hsub hne
    have hrmem : r ∈ sidsOf t.spans := by
      rw [hsids]
      exact hsub r (List.mem_cons_self _ _)
    obtain ⟨s, hfind, hsmem, hssid⟩ := find?_sid t.spans r hrmem
    have hsfin : s.finished = false := by
      have h := (hflags s hsmem).symm
      cases hf : s.finished
      · rfl
      · exfalso
        exact (h.mpr hf) (by rw [hssid]; exact List.mem_cons_self _ _)
    have hrnotin : r ∉ R' := (List.nodup_cons.mp hnd).1
    cases R' with
    | nil =>
      have hlen : t.spans.length = t.finished + 1 := by
        simpa using hcount.symm
      obtain ⟨s5, lk, hsid5, hfin5, heq⟩ :=
        finishedOne_full_flush env tri t s htr hfull hconc hlen
      have hstep := finishSid_of_find env t r s _ hfind heq
      refine ⟨{ t with spans := ([] : List Span), finished := 0, locked := lk },
        ⟨(updAt t.spans s.sid (fun _ => s5)),
          decide (t.samplingDecision = SamplingDecision.keep)⟩, ?_, ?_, ?_, ?_⟩
      · rw [runFinishes_cons, hstep, except_bind_ok, runFinishes_nil, except_bind_ok]
        rfl
      · show sidsOf (updAt t.spans s.sid (fun _ => s5)) = sids0
        rw [sidsOf_updAt_const t.spans s.sid s5 hsid5]
        exact hsids
      · show decide (t.samplingDecision = SamplingDecision.keep) = true ↔
          t.samplingDecision = SamplingDecision.keep
        exact decide_eq_true_iff
      · rfl
    | cons r2 R'' =>
      have hlen' : t.spans.length ≠ t.finished + 1 := by
        simp only [List.length_cons] at hcount
        omega
      have hnp : ¬ (tri.conf.partialFlush ∧
          tri.conf.partialFlushMinSpans ≤ ((t.finished + 1 : Nat) : Int)) := by
        rintro ⟨h1, _⟩
        rw [hpf] at h1
        exact Bool.false_ne_true h1
      obtain ⟨s5, lk, hsid5, hfin5, heq⟩ :=
        finishedOne_no_flush env tri t s htr hfull hlen' hnp
      have hstep := finishSid_of_find env t r s _ hfind heq
      have hsids1 : sidsOf (updAt t.spans s.sid (fun _ => s5)) = sids0 := by
        rw [sidsOf_updAt_const t.spans s.sid s5 hsid5]
        exact hsids
      have hflags1 : ∀ x ∈ updAt t.spans s.sid (fun _ => s5),
          (x.finished = true ↔ x.sid ∉ r2 :: R'') := by
        intro x hx
        obtain ⟨y, hy, hφ⟩ := List.mem_map.mp hx
        by_cases hys : y.sid = s.sid
        · rw [if_pos hys] at hφ
          subst hφ
          constructor
          · intro _
            rw [hsid5, hssid]
            exact hrnotin
          · intro _
            exact hfin5
        · rw [if_neg hys] at hφ
          subst hφ
          have hold := hflags y hy
          constructor
          · intro hf
            exact fun hmem => (hold.mp hf) (List.mem_cons_of_mem _ hmem)
          · intro hnot
            apply hold.mpr
            intro hmem
            rcases List.mem_cons.mp hmem with hh | hh
            · exact hys (by rw [hh, hssid])
            · exact hnot hh
      have hcount1 : (t.finished + 1) + (r2 :: R'').length =
          (updAt t.spans s.sid (fun _ => s5)).length := by
        rw [length_updAt]
        simp only [List.length_cons] at hcount ⊢
        omega
      obtain ⟨t2, c, hrun2, hsids2, hws2, hempty2⟩ := ih
        { t with
          spans := (updAt t.spans s.sid (fun _ => s5)),
          finished := t.finished + 1, locked := lk }
        hfull hsids1 hflags1 hcount1 (List.nodup_cons.mp hnd).2
        (fun i hi => hsub i (List.mem_cons_of_mem _ hi))
        (List.cons_ne_nil _ _)
      refine ⟨t2, c, ?_, hsids2, hws2, hempty2⟩
      rw [runFinishes_cons, hstep, except_bind_ok]
      dsimp only
      rw [hrun2, except_bind_ok]
      simp [List.replicate_succ]

theorem foldl_push_append (l : List Span) :
    ∀ t : Trace, t.full = false →
      t.spans.length + l.length ≤ traceMaxSize →
      (∀ sp ∈ l, mapGet sp.metrics keySamplingPriority = Option.none) →
      l.foldl push t = { t with spans := t.spans ++ l } := by
  induction l with
  | nil =>
    intro t _ _ _
    simp
  | cons sp rest ih =>
    intro t hfull hlen hmet
    have hlt : ¬ traceMaxSize ≤ t.spans.length := by
      simp only [List.length_cons] at hlen
      omega
    have hpush : push t sp = { t with spans := t.spans ++ [sp] } := by
      unfold push
      rw [if_neg (by
        rw [hfull]
        exact Bool.false_ne_true)]
      rw [if_neg hlt, hmet sp (List.mem_cons_self _ _)]
    rw [List.foldl_cons, hpush]
    rw [ih { t with spans := t.spans ++ [sp] } hfull
      (by
        have hl : (t.spans ++ [sp]).length = t.spans.length + 1 := by simp
        rw [hl]
        simp only [List.length_cons] at hlen
        omega)
      (fun x hx => hmet x (List.mem_cons_of_mem _ hx))]
    simp

/-! ## C1 -/

/-- C1: for a trace of pushed spans with partial flush disabled and no
capacity overflow, finishing the spans in any order submits a chunk
exactly once — on the last finish — containing exactly the pushed
spans, with willSend true iff the sampling decision is keep, and the
buffer's span collection is then cleared.  (The first conjunct ties
the start state to pushes: pushing the spans onto a fresh buffer
yields exactly that buffer.) -/
theorem c1_full_flush_exactly_once
    (conf : TracerConf) (gitTags : List (String × String)) (processTags : String)
    (spans0 : List Span) (order : List Nat)
    (tg ptg : List (String × String)) (pr : Option Int) (lkd : Bool)
    (dec : SamplingDecision) (rs : Option Nat)
    (hpf : conf.partialFlush = false)
    (hnd : (sidsOf spans0).Nodup)
    (hunfin : ∀ x ∈ spans0, x.finished = false)
    (hperm : order.Perm (sidsOf spans0))
    (hne : spans0 ≠ []) :
    (spans0.length ≤ traceMaxSize →
      (∀ sp ∈ spans0, mapGet sp.metrics keySamplingPriority = Option.none) →
      spans0.foldl push newTrace = { newTrace with spans := spans0 }) ∧
    (∃ (t2 : Trace) (c : Chunk),
      runFinishes ⟨some ⟨conf, true⟩, gitTags, processTags⟩
        { spans := spans0, tags := tg, propagatingTags := ptg, finished := 0,
          full := false, priority := pr, locked := lkd, samplingDecision := dec,
          rootSid := rs } order =
        Except.ok (t2, List.replicate (order.length - 1) Option.none ++ [some c]) ∧
      sidsOf c.spans = sidsOf spans0 ∧
      (c.willSend = true ↔ dec = SamplingDecision.keep) ∧
      t2.spans = []) := by
  constructor
  · intro hcap hmet
    have h := foldl_push_append spans0 newTrace rfl (by
      simpa [newTrace] using hcap) hmet
    simpa [newTrace] using h
  · have hlen0 : order.length = spans0.length := by
      rw [hperm.length_eq]
      simp [sidsOf]
    have hone : order ≠ [] := by
      intro hc
      apply hne
      subst hc
      have : spans0.length = 0 := by
        rw [← hlen0]
        rfl
      exact List.eq_nil_of_length_eq_zero this
    exact runFinishes_no_partial ⟨some ⟨conf, true⟩, gitTags, processTags⟩
      ⟨conf, true⟩ rfl rfl hpf (sidsOf spans0) order
      { spans := spans0, tags := tg, propagatingTags := ptg, finished := 0,
        full := false, priority := pr, locked := lkd, samplingDecision := dec,
        rootSid := rs }
      rfl rfl
      (fun x hx => by
        rw [hunfin x hx]
        constructor
        · intro hc
          cases hc
        · intro hnotin
          exfalso
          exact hnotin (hperm.mem_iff.mpr (List.mem_map.mpr ⟨x, hx, rfl⟩)))
      (by
        simp [hlen0])
      (hperm.symm.nodup hnd)
      (fun i hi => hperm.subset hi)
      hone

/-- Witness for C1: a three-span trace finished children-first,
producing no chunk on the first two finishes and one three-span chunk
on the last, after which the buffer is empty. -/
theorem c1_witness :
    ([wSpan 1, wSpan 2, wSpan 3].foldl push newTrace =
      { newTrace with spans := [wSpan 1, wSpan 2, wSpan 3] }) ∧
    (∃ (t2 : Trace) (c : Chunk),
      runFinishes wEnvOff wTrace3 [3, 2, 1] =
        Except.ok (t2, [Option.none, Option.none, some c]) ∧
      sidsOf c.spans = [1, 2, 3] ∧
      (c.willSend = true ↔ SamplingDecision.none = SamplingDecision.keep) ∧
      t2.spans = []) := by
  have h := c1_full_flush_exactly_once wConfOff [] ""
    [wSpan 1, wSpan 2, wSpan 3] [3, 2, 1] [] [] Option.none false
    SamplingDecision.none (some 1) rfl (by decide) (by decide) (by decide) (by decide)
  exact ⟨h.1 (by decide) (by decide), h.2⟩


theorem chunkSids_cons_none (cs : List (Option Chunk)) :
    chunkSids (Option.none :: cs) = chunkSids cs := rfl

theorem chunkSids_cons_some (c : Chunk) (cs : List (Option Chunk)) :
    chunkSids (some c :: cs) = sidsOf c.spans ++ chunkSids cs := rfl

theorem sids_partition_perm (l : List Span) :
    (sidsOf (l.filter (fun x => x.finished)) ++
      sidsOf (l.filter (fun x => ! x.finished))).Perm (sidsOf l) := by
  have h := (filter_partition_perm l).map (fun x => x.sid)
  simpa [sidsOf, List.map_append] using h

theorem runFinishes_conserves (env : Env) (tri : TracerImpl)
    (htr : env.tracer = some tri) (hconc : tri.isConcrete = true)
    (allSids : List Nat) (hndall : allSids.Nodup) (p : Int) :
    ∀ (R : List Nat), ∀ (flushed : List Nat), ∀ (t : Trace),
      t.full = false →
      ((sidsOf t.spans ++ flushed).Perm allSids) →
      (∀ x ∈ t.spans, (x.finished = true ↔ x.sid ∉ R)) →
      t.finished = (t.spans.filter (fun x => x.finished)).length →
      (t.spans.filter (fun x => ! x.finished)).length = R.length →
      (∀ i ∈ R, i ∈ sidsOf t.spans) →
      R.Nodup →
      t.priority = some p →
      ∃ (t2 : Trace) (cs : List (Option Chunk)),
        runFinishes env t R = Except.ok (t2, cs) ∧
        ((sidsOf t2.spans ++ (flushed ++ chunkSids cs)).Perm allSids) ∧
        (R ≠ [] → t2.spans = []) := by
  intro R
  induction R with
  | nil =>
    intro flushed t _ hperm _ _ _ _ _ _
    refine ⟨t, [], runFinishes_nil env t, ?_, fun hc => absurd rfl hc⟩
    simpa [chunkSids] using hperm
  | cons r R' ih =>
    intro flushed t hfull hperm hflags hcount hunfin hsub hnd hpri
    have hndspans : (sidsOf t.spans).Nodup :=
      List.Nodup.of_append_left (hperm.symm.nodup hndall)
    have hrmem : r ∈ sidsOf t.spans := hsub r (List.mem_cons_self _ _)
    obtain ⟨s, hfind, hsmem, hssid⟩ := find?_sid t.spans r hrmem
    have hsfin : s.finished = false := by
      have h := (hflags s hsmem).symm
      cases hf : s.finished
      · rfl
      · exfalso
        exact (h.mpr hf) (by rw [hssid]; exact List.mem_cons_self _ _)
    have hrnotin : r ∉ R' := (List.nodup_cons.mp hnd).1
    have hpartition := filter_partition_length t.spans
    simp only [List.length_cons] at hunfin
    by_cases hfl : t.spans.length = t.finished + 1
    · -- full flush: every other span is already finished, so R' is empty
      have hR0 : R'.length = 0 := by omega
      have hR' : R' = [] := List.eq_nil_of_length_eq_zero hR0
      subst hR'
      obtain ⟨s5, lk, hsid5, hfin5, heq⟩ :=
        finishedOne_full_flush env tri t s htr hfull hconc hfl
      have hstep := finishSid_of_find env t r s _ hfind heq
      refine ⟨{ t with spans := ([] : List Span), finished := 0, locked := lk },
        [some (⟨(updAt t.spans s.sid (fun _ => s5)),
          decide (t.samplingDecision = SamplingDecision.keep)⟩ : Chunk)],
        ?_, ?_, fun _ => rfl⟩
      · rw [runFinishes_cons, hstep, except_bind_ok, runFinishes_nil, except_bind_ok]
      · have hs2 : sidsOf (updAt t.spans s.sid (fun _ => s5)) = sidsOf t.spans :=
          sidsOf_updAt_const t.spans s.sid s5 hsid5
        show (sidsOf ([] : List Span) ++ (flushed ++
          chunkSids [some (⟨(updAt t.spans s.sid (fun _ => s5)),
            decide (t.samplingDecision = SamplingDecision.keep)⟩ : Chunk)])).Perm allSids
        have hrw : sidsOf ([] : List Span) ++ (flushed ++
            chunkSids [some (⟨(updAt t.spans s.sid (fun _ => s5)),
              decide (t.samplingDecision = SamplingDecision.keep)⟩ : Chunk)]) =
            flushed ++ (sidsOf (updAt t.spans s.sid (fun _ => s5)) ++ []) := rfl
        rw [hrw, List.append_nil, hs2]
        exact List.Perm.trans List.perm_append_comm hperm
    · have hR'ne : R' ≠ [] := by
        intro hc
        apply hfl
        rw [hc] at hunfin
        simp only [List.length_nil] at hunfin
        omega
      by_cases hpfc : tri.conf.partialFlush = true ∧
        tri.conf.partialFlushMinSpans ≤ ((t.finished + 1 : Nat) : Int)
      · -- partial flush: the finished spans go out, the unfinished stay
        obtain ⟨s5, s6, lk, chSpans, hsid5, hfin5, heq, hchsids⟩ :=
          finishedOne_partial_flush env tri t s p htr hfull hconc hfl hpfc.1 hpfc.2
            hpri (by rw [hssid]; exact hrmem)
        have hstep := finishSid_of_find env t r s _ hfind heq
        have hs2 : sidsOf (updAt t.spans s.sid (fun _ => s5)) = sidsOf t.spans :=
          sidsOf_updAt_const t.spans s.sid s5 hsid5
        have hpart := sids_partition_perm (updAt t.spans s.sid (fun _ => s5))
        have hperm1 : ((sidsOf ((updAt t.spans s.sid (fun _ => s5)).filter
            (fun x => ! x.finished))) ++ (flushed ++ sidsOf chSpans)).Perm allSids := by
          rw [hchsids]
          refine List.Perm.trans (List.Perm.append_left _ List.perm_append_comm) ?_
          rw [← List.append_assoc]
          refine List.Perm.trans
            (List.Perm.append_right flushed
              (List.Perm.trans List.perm_append_comm hpart)) ?_
          rw [hs2]
          exact hperm
        have hflags1 : ∀ x ∈ (updAt t.spans s.sid (fun _ => s5)).filter
            (fun x => ! x.finished), (x.finished = true ↔ x.sid ∉ R') := by
          intro x hx
          obtain ⟨hxu, hxf⟩ := List.mem_filter.mp hx
          have hxfin : x.finished = false := by
            cases hf : x.finished
            · rfl
            · rw [hf] at hxf
              cases hxf
          obtain ⟨y, hy, hφ⟩ := List.mem_map.mp hxu
          have hxmem : x.sid ∈ R' := by
            by_cases hys : y.sid = s.sid
            · rw [if_pos hys] at hφ
              exfalso
              rw [← hφ, hfin5] at hxfin
              cases hxfin
            · rw [if_neg hys] at hφ
              subst hφ
              have hin : y.sid ∈ r :: R' := by
                by_contra hc
                rw [(hflags y hy).mpr hc] at hxfin
                cases hxfin
              rcases List.mem_cons.mp hin with hh | hh
              · exact absurd (hh.trans hssid.symm) hys
              · exact hh
          constructor
          · intro hc
            rw [hxfin] at hc
            cases hc
          · intro hnot
            exact absurd hxmem hnot
        have hcount1 : (0 : Nat) = (((updAt t.spans s.sid (fun _ => s5)).filter
            (fun x => ! x.finished)).filter (fun x => x.finished)).length := by
          have hnil : ((updAt t.spans s.sid (fun _ => s5)).filter
              (fun x => ! x.finished)).filter (fun x => x.finished) = [] := by
            rw [List.filter_eq_nil_iff]
            intro a ha
            intro hfa
            have h2 := (List.mem_filter.mp ha).2
            rw [hfa] at h2
            exact absurd h2 (by decide)
          rw [hnil]
          rfl
        have hunfin1 : (((updAt t.spans s.sid (fun _ => s5)).filter
            (fun x => ! x.finished)).filter (fun x => ! x.finished)).length =
            R'.length := by
          have hself : ((updAt t.spans s.sid (fun _ => s5)).filter
              (fun x => ! x.finished)).filter (fun x => ! x.finished) =
              (updAt t.spans s.sid (fun _ => s5)).filter (fun x => ! x.finished) :=
            List.filter_eq_self.mpr (fun a ha => (List.mem_filter.mp ha).2)
          rw [hself]
          have hdec := filter_unfin_updAt_mark s.sid s5 s rfl hsfin hfin5 t.spans
            hndspans hsmem
          omega
        have hsub1 : ∀ i ∈ R', i ∈ sidsOf ((updAt t.spans s.sid (fun _ => s5)).filter
            (fun x => ! x.finished)) := by
          intro i hi
          have hiR : i ∈ r :: R' := List.mem_cons_of_mem _ hi
          have hit : i ∈ sidsOf t.spans := hsub i hiR
          obtain ⟨y, hy, hysid⟩ := List.mem_map.mp hit
          have hyfin : y.finished = false := by
            cases hf : y.finished
            · rfl
            · exfalso
              exact ((hflags y hy).mp hf) (by rw [hysid]; exact hiR)
          have hyne : ¬ y.sid = s.sid := by
            intro hc
            apply hrnotin
            rw [← hssid, ← hc, hysid]
            exact hi
          have hyu : y ∈ updAt t.spans s.sid (fun _ => s5) :=
            List.mem_map.mpr ⟨y, hy, by rw [if_neg hyne]⟩
          have hyuf : y ∈ (updAt t.spans s.sid (fun _ => s5)).filter
              (fun x => ! x.finished) :=
            List.mem_filter.mpr ⟨hyu, by rw [hyfin]; rfl⟩
          exact List.mem_map.mpr ⟨y, hyuf, hysid⟩
        obtain ⟨t2, cs, hrun2, hperm2, hlast⟩ := ih (flushed ++ sidsOf chSpans)
          { t with
            spans := ((updAt t.spans s.sid (fun _ => s5)).filter
              (fun x => ! x.finished)),
            finished := 0, locked := lk }
          hfull hperm1 hflags1 hcount1 hunfin1 hsub1 (List.nodup_cons.mp hnd).2 hpri
        refine ⟨t2, (some (⟨chSpans,
          decide (t.samplingDecision = SamplingDecision.keep)⟩ : Chunk)) :: cs,
          ?_, ?_, fun _ => hlast hR'ne⟩
        · rw [runFinishes_cons, hstep, except_bind_ok]
          dsimp only
          rw [hrun2, except_bind_ok]
        · rw [chunkSids_cons_some, ← List.append_assoc flushed]
          exact hperm2
      · -- no flush: only the finished counter and the span flag move
        obtain ⟨s5, lk, hsid5, hfin5, heq⟩ :=
          finishedOne_no_flush env tri t s htr hfull hfl hpfc
        have hstep := finishSid_of_find env t r s _ hfind heq
        have hperm1 : (sidsOf (updAt t.spans s.sid (fun _ => s5)) ++ flushed).Perm
            allSids := by
          rw [sidsOf_updAt_const t.spans s.sid s5 hsid5]
          exact hperm
        have hflags1 : ∀ x ∈ updAt t.spans s.sid (fun _ => s5),
            (x.finished = true ↔ x.sid ∉ R') := by
          intro x hx
          obtain ⟨y, hy, hφ⟩ := List.mem_map.mp hx
          by_cases hys : y.sid = s.sid
          · rw [if_pos hys] at hφ
            subst hφ
            constructor
            · intro _
              rw [hsid5, hssid]
              exact hrnotin
            · intro _
              exact hfin5
          · rw [if_neg hys] at hφ
            subst hφ
            have hold := hflags y hy
            constructor
            · intro hf
              exact fun hmem => (hold.mp hf) (List.mem_cons_of_mem _ hmem)
            · intro hnot
              apply hold.mpr
              intro hmem
              rcases List.mem_cons.mp hmem with hh | hh
              · exact hys (by rw [hh, hssid])
              · exact hnot hh
        have hcount1 : t.finished + 1 =
            ((updAt t.spans s.sid (fun _ => s5)).filter
              (fun x => x.finished)).length := by
          have hinc := filter_fin_updAt_mark s.sid s5 s rfl hsfin hfin5 t.spans
            hndspans hsmem
          omega
        have hunfin1 : ((updAt t.spans s.sid (fun _ => s5)).filter
            (fun x => ! x.finished)).length = R'.length := by
          have hdec := filter_unfin_updAt_mark s.sid s5 s rfl hsfin hfin5 t.spans
            hndspans hsmem
          omega
        have hsub1 : ∀ i ∈ R', i ∈ sidsOf (updAt t.spans s.sid (fun _ => s5)) := by
          intro i hi
          rw [sidsOf_updAt_const t.spans s.sid s5 hsid5]
          exact hsub i (List.mem_cons_of_mem _ hi)
        obtain ⟨t2, cs, hrun2, hperm2, hlast⟩ := ih flushed
          { t with
            spans := (updAt t.spans s.sid (fun _ => s5)),
            finished := t.finished + 1, locked := lk }
          hfull hperm1 hflags1 hcount1 hunfin1 hsub1 (List.nodup_cons.mp hnd).2 hpri
        refine ⟨t2, Option.none :: cs, ?_, ?_, fun _ => hlast hR'ne⟩
        · rw [runFinishes_cons, hstep, except_bind_ok]
          dsimp only
          rw [hrun2, except_bind_ok]
        · rw [chunkSids_cons_none]
          exact hperm2

/-! ## C2 -/

/-- C2 counterexample to the original claim: with partial flush enabled
at minimum 2 and a buffer whose sampling priority was never set, a run
finishing the remaining spans produces no chunks at all — the first
finish fires a partial flush that dereferences the unset priority and
the whole run fails. -/
theorem c2_counterexample :
    runFinishes wEnvOn wTraceBug [2, 3] = Except.error () := by rfl

/-- C2 (amended): with partial flush enabled at threshold T, a finish
that brings the finished count to at least T while not every buffered
span is finished — provided the trace's sampling priority has been set —
submits a chunk containing exactly the finished spans in buffer order,
replaces the buffer's span collection by exactly the unfinished spans
and resets its finished counter to 0; and across all partial and full
flushes of a run that finishes every remaining span, each buffered span
appears in exactly one submitted chunk. -/
theorem c2_partial_flush_conservation_amended
    (env : Env) (tri : TracerImpl) (t : Trace) (s : Span) (p : Int)
    (htr : env.tracer = some tri) (hconc : tri.isConcrete = true)
    (hfull : t.full = false) (hpri : t.priority = some p) :
    (t.spans.length ≠ t.finished + 1 →
      tri.conf.partialFlush = true →
      tri.conf.partialFlushMinSpans ≤ ((t.finished + 1 : Nat) : Int) →
      s.sid ∈ sidsOf t.spans →
      ∃ (s5 s6 : Span) (lk : Bool) (chSpans : List Span),
        s5.sid = s.sid ∧ s5.finished = true ∧
        finishedOne env t s = Except.ok ⟨{ t with
            spans := ((updAt t.spans s.sid (fun _ => s5)).filter
              (fun x => ! x.finished)),
            finished := 0, locked := lk }, s6,
          some ⟨chSpans, decide (t.samplingDecision = SamplingDecision.keep)⟩⟩ ∧
        sidsOf chSpans =
          sidsOf ((updAt t.spans s.sid (fun _ => s5)).filter
            (fun x => x.finished))) ∧
    (∀ R : List Nat,
      (sidsOf t.spans).Nodup →
      (∀ x ∈ t.spans, (x.finished = true ↔ x.sid ∉ R)) →
      t.finished = (t.spans.filter (fun x => x.finished)).length →
      (t.spans.filter (fun x => ! x.finished)).length = R.length →
      (∀ i ∈ R, i ∈ sidsOf t.spans) →
      R.Nodup →
      R ≠ [] →
      ∃ (t2 : Trace) (cs : List (Option Chunk)),
        runFinishes env t R = Except.ok (t2, cs) ∧
        (chunkSids cs).Perm (sidsOf t.spans) ∧
        t2.spans = []) := by
  constructor
  · intro hlen hpf hmin hmem
    exact finishedOne_partial_flush env tri t s p htr hfull hconc hlen hpf hmin
      hpri hmem
  · intro R hnds hflags hcount hunfin hsub hnd hne
    obtain ⟨t2, cs, hrun, hperm2, hlast⟩ :=
      runFinishes_conserves env tri htr hconc (sidsOf t.spans) hnds p R [] t hfull
        (by rw [List.append_nil]) hflags hcount hunfin hsub hnd hpri
    have hsp := hlast hne
    refine ⟨t2, cs, hrun, ?_, hsp⟩
    rw [hsp] at hperm2
    exact hperm2

/-- Witness for C2: a three-span buffer with priority set and one span
already finished; finishing span 2 fires a partial flush submitting the
two finished spans and keeping span 3 with the counter reset, and a run
finishing spans 3 then 2 succeeds with its chunks carrying each buffered
span exactly once. -/
theorem c2_witness :
    (∃ (s5 s6 : Span) (lk : Bool) (chSpans : List Span),
      s5.sid = (wSpan 2).sid ∧ s5.finished = true ∧
      finishedOne wEnvOn wTraceC2 (wSpan 2) = Except.ok ⟨{ wTraceC2 with
          spans := ((updAt wTraceC2.spans (wSpan 2).sid (fun _ => s5)).filter
            (fun x => ! x.finished)),
          finished := 0, locked := lk }, s6,
        some ⟨chSpans, decide (wTraceC2.samplingDecision = SamplingDecision.keep)⟩⟩ ∧
      sidsOf chSpans =
        sidsOf ((updAt wTraceC2.spans (wSpan 2).sid (fun _ => s5)).filter
          (fun x => x.finished))) ∧
    (∃ (t2 : Trace) (cs : List (Option Chunk)),
      runFinishes wEnvOn wTraceC2 [3, 2] = Except.ok (t2, cs) ∧
      (chunkSids cs).Perm (sidsOf wTraceC2.spans) ∧
      t2.spans = []) := by
  have h := c2_partial_flush_conservation_amended wEnvOn ⟨wConfOn, true⟩ wTraceC2
    (wSpan 2) 2 rfl rfl rfl rfl
  exact ⟨h.1 (by decide) rfl (by decide) (by decide),
    h.2 [3, 2] (by decide) (by decide) (by decide) (by decide) (by decide)
      (by decide) (by decide)⟩
